import Mathlib

/-!
# libim typed byte streams

A shallow embedding of `src/libim/io/stream.h` (class `Stream` and its typed
read / write layer) together with the properties of the stream contract, followed by the
users of that layer: the RIFF / WAV chunks of `wav.h`, the section table of `cnd.h`, the
tokens of `token.h` and the field writer of `text_resource_writer.cpp`.

Conventions of the embedding

* `std::size_t` is a 64-bit unsigned integer: sizes and positions are naturals and every
  `size_t` addition, subtraction or multiplication of the source that can leave the range is
  reduced modulo `SIZE_MAX + 1`.
* The pure virtual members of `Stream` (`seek`, `size`, `tell`, `canRead`, `canWrite`,
  `readsome`, `writesome`) are the fields of the structure `Stream`; a stream object is a
  state of type `σ` that is threaded through the calls.
* A C++ exception is the `error` branch of `Except Exn`.
* Whether the construction of a container of a requested size succeeds, throws
  `std::length_error` or throws `std::bad_alloc` is decided by the machine, not by the source:
  it is the parameter `Allocator` of the members with the suffix `_on`. The members without
  the suffix are those of the machine without a limit of its own (`allocate`); they are used
  where the request is bounded by the bytes that a stream already holds in memory, where the
  statement is conditional on success, and where two calls on the same machine are compared.
* `reinterpret_cast<byte_t*>(&x)` exposes the object representation of `x`; it depends on the
  byte order of the host, which is the parameter `Endian` of the typed operations.
-/

namespace libim

/-! ## Machine model -/

/-- A `byte_t`: a natural number below 256. -/
abbrev Byte := Nat

/-- Largest value of `std::size_t` (64-bit targets). -/
def SIZE_MAX : Nat := 18446744073709551615

/-- Largest value of `std::ptrdiff_t` (64-bit targets). -/
def PTRDIFF_MAX : Nat := 9223372036854775807

/-- Exceptions that the stream layer can raise: `StreamError` (declared in stream.h), and the
`std::length_error` and `std::bad_alloc` of the standard containers the code constructs. -/
inductive Exn where
  | StreamError (what : String)
  | length_error (what : String)
  | bad_alloc
  deriving DecidableEq, Repr

/-- Byte order of the host, which fixes the object representation of integers. -/
inductive Endian where
  | little
  | big
  deriving DecidableEq, Repr

/-- What the construction of a standard container (`ByteArray data(size)`,
`std::vector<T> vec(n)`, `std::string res(n, c)`) of `count` elements of `elemSize` bytes does
on the machine that runs the program: it succeeds, or it throws `std::length_error` (the count
is above the `max_size()` of the container, which the implementation of the library fixes) or
`std::bad_alloc` (the memory cannot be obtained). The source does not determine which; the
outcome is a parameter of the members that construct a buffer of a requested size. -/
abbrev Allocator := Nat → Nat → Except Exn Unit

/-- What holds on every machine: a container that has been constructed holds at most
`PTRDIFF_MAX` bytes (no `max_size()` is larger), and a construction that fails throws
`std::length_error` or `std::bad_alloc`, never a `StreamError`. -/
def Allocator.Lawful (A : Allocator) : Prop :=
  (∀ count elemSize, A count elemSize = .ok () → count * elemSize ≤ PTRDIFF_MAX)
    ∧ (∀ count elemSize x, A count elemSize = .error x → ∀ msg, x ≠ .StreamError msg)

/-- A machine whose containers hold at most `maxBytes` bytes (`max_size()` times the element
size) and whose memory serves requests of at most `capacity` bytes: the length check of the
constructor comes first, then the request for memory. -/
def Allocator.limited (maxBytes capacity : Nat) : Allocator := fun count elemSize =>
  if count * elemSize > maxBytes then
    .error (.length_error "cannot create container larger than max_size()")
  else if count * elemSize > capacity then .error .bad_alloc
  else .ok ()

/-- The construction of a container on a machine without a limit of its own: memory serves
every request, and only a request above `PTRDIFF_MAX` bytes, which no container of any
implementation can hold, throws `std::length_error` (it is
`Allocator.limited PTRDIFF_MAX PTRDIFF_MAX`). A real machine refuses smaller requests too
(libstdc++ has `max_size() = 2^62 - 1` for `std::string`, and a request that the memory
cannot serve throws `std::bad_alloc`): a success of this definition says nothing about a
real machine for a request that is not bounded by a buffer already in memory. The members
with the suffix `_on` take the outcome of the construction as the parameter `Allocator`. -/
def allocate (count elemSize : Nat) : Except Exn Unit :=
  if count * elemSize > PTRDIFF_MAX then
    .error (.length_error "cannot create container larger than max_size()")
  else .ok ()

/-- The caller's buffer after a transfer: the bytes `delivered` by `readsome` overwrite the
start of the buffer, whose size is fixed and whose other bytes keep their initial value. -/
def fill (init delivered : List Byte) : List Byte :=
  (delivered ++ init.drop delivered.length).take init.length

/-! ## Fixed-width primitive types -/

/-- The primitive types with an explicit `read<T>` / `write(T)` pair in stream.h. -/
inductive PrimType where
  | char | int8_t | uint8_t | int16_t | uint16_t
  | int32_t | uint32_t | int64_t | uint64_t | float | double
  deriving DecidableEq, Repr

/-- Modelled from the spec: common.h, which defines the byte-size constants, is not part of the
sources; the spec states that a primitive transfers exactly `sizeof(T)` bytes. -/
def CHAR_BYTE : Nat := 1

/-- Modelled from the spec: common.h is missing; `sizeof(int8_t)`. -/
def INT8_BYTE : Nat := 1

/-- Modelled from the spec: common.h is missing; `sizeof(int16_t)`. -/
def INT16_BYTE : Nat := 2

/-- Modelled from the spec: common.h is missing; `sizeof(int32_t)`. -/
def INT32_BYTE : Nat := 4

/-- Modelled from the spec: common.h is missing; `sizeof(int64_t)`. -/
def INT64_BYTE : Nat := 8

/-- Modelled from the spec: common.h is missing; `sizeof(float)`. -/
def FLOAT_BYTE : Nat := 4

/-- Modelled from the spec: common.h is missing; `sizeof(double)`. -/
def DOUBLE_BYTE : Nat := 8

namespace PrimType

/-- The byte count each specialisation passes to `read` / `write`. -/
def bytes : PrimType → Nat
  | char => CHAR_BYTE
  | int8_t => INT8_BYTE
  | uint8_t => INT8_BYTE
  | int16_t => INT16_BYTE
  | uint16_t => INT16_BYTE
  | int32_t => INT32_BYTE
  | uint32_t => INT32_BYTE
  | int64_t => INT64_BYTE
  | uint64_t => INT64_BYTE
  | float => FLOAT_BYTE
  | double => DOUBLE_BYTE

/-- The value `sizeof(T)` of the language. -/
def sizeof : PrimType → Nat
  | char => 1
  | int8_t => 1
  | uint8_t => 1
  | int16_t => 2
  | uint16_t => 2
  | int32_t => 4
  | uint32_t => 4
  | int64_t => 8
  | uint64_t => 8
  | float => 4
  | double => 8

/-- Signed integer types (two's complement); `char` is signed on the x86 targets. A `float` or
`double` is carried as its IEEE bit pattern, an unsigned number. -/
def isSigned : PrimType → Bool
  | char => true
  | int8_t => true
  | int16_t => true
  | int32_t => true
  | int64_t => true
  | _ => false

/-- Name of the type as it appears in the error messages. -/
def name : PrimType → String
  | char => "char"
  | int8_t => "int8_t"
  | uint8_t => "uint8_t"
  | int16_t => "int16_t"
  | uint16_t => "uint16_t"
  | int32_t => "int32_t"
  | uint32_t => "uint32_t"
  | int64_t => "int64_t"
  | uint64_t => "uint64_t"
  | float => "float"
  | double => "double"

/-- Message of the `StreamError` thrown by `read<T>()`. -/
def readMsg : PrimType → String
  | char => "Could not read char from stream!"
  | T => "Could not read " ++ T.name ++ " from stream"

/-- Message of the `StreamError` thrown by `write(T)`. -/
def writeMsg : PrimType → String
  | char => "Could not write char to stream!"
  | T => "Could not write " ++ T.name ++ " to stream"

/-- The values of the type: the integers of its range (bit patterns for `float`, `double`). -/
def InRange (T : PrimType) (x : Int) : Prop :=
  if T.isSigned then -(2 ^ (8 * T.sizeof - 1) : Int) ≤ x ∧ x < 2 ^ (8 * T.sizeof - 1)
  else 0 ≤ x ∧ x < 2 ^ (8 * T.sizeof)

instance (T : PrimType) (x : Int) : Decidable (T.InRange x) := by
  unfold InRange; exact inferInstance

end PrimType

/-- The `k` low-order base-256 digits of `x`, least significant first. -/
def toBytesLE : Nat → Nat → List Byte
  | 0, _ => []
  | k + 1, x => x % 256 :: toBytesLE k (x / 256)

/-- The number whose base-256 digits, least significant first, are `bs`. -/
def fromBytesLE : List Byte → Nat
  | [] => 0
  | b :: bs => b + 256 * fromBytesLE bs

/-- Object representation of the value `x` of type `T` in memory, lowest address first:
`reinterpret_cast<const byte_t*>(&x)` read over `sizeof(T)` bytes. -/
def objectBytes (e : Endian) (T : PrimType) (x : Int) : List Byte :=
  let u := (x % 2 ^ (8 * T.sizeof)).toNat
  match e with
  | .little => toBytesLE T.sizeof u
  | .big => (toBytesLE T.sizeof u).reverse

/-- Value of type `T` whose object representation is `bs` (lowest address first). -/
def objectValue (e : Endian) (T : PrimType) (bs : List Byte) : Int :=
  let u := fromBytesLE (match e with
    | .little => bs
    | .big => bs.reverse)
  if T.isSigned ∧ 2 ^ (8 * T.sizeof - 1) ≤ u then (u : Int) - 2 ^ (8 * T.sizeof) else (u : Int)

/-- Contents of `vec.data()`: the object representations of the elements, in index order. -/
def vectorBytes (e : Endian) (T : PrimType) (vec : List Int) : List Byte :=
  (vec.map (objectBytes e T)).flatten

/-- First `n` consecutive groups of `w` bytes of a buffer. -/
def chunks (w : Nat) : Nat → List Byte → List (List Byte)
  | 0, _ => []
  | n + 1, bs => bs.take w :: chunks w n (bs.drop w)

/-- Elements of a vector of `n` values of type `T` whose storage holds the bytes `raw`. -/
def vectorOfBytes (e : Endian) (T : PrimType) (n : Nat) (raw : List Byte) : List Int :=
  (chunks T.sizeof n raw).map (objectValue e T)

/-- Value `std::string::npos`. -/
def npos : Nat := SIZE_MAX

/-- Index of the first occurrence of `c` as `std::string::find(c)` gives it, `npos` when the
character does not occur. -/
def find (str : List Byte) (c : Byte) : Nat :=
  if c ∈ str then str.indexOf c else npos

/-! ## class Stream -/

/-- The abstract interface of `class Stream`: its pure virtual member functions, over the
state `σ` of the stream object. `readsome s length` gives the reported count, the bytes
stored into the caller's buffer and the new state; `writesome s data` receives the
`data.length` bytes to transfer and gives the reported count and the new state. -/
structure Stream (σ : Type) where
  seek : σ → Nat → Except Exn σ
  size : σ → Nat
  tell : σ → Nat
  canRead : σ → Bool
  canWrite : σ → Bool
  readsome : σ → Nat → Except Exn (Nat × List Byte × σ)
  writesome : σ → List Byte → Except Exn (Nat × σ)

namespace Stream

variable {σ : Type}

/-- Member `std::size_t read(byte_t* data, const std::size_t length) const`. -/
def read (B : Stream σ) (s : σ) (length : Nat) : Except Exn (Nat × List Byte × σ) :=
  if (B.tell s + length) % (SIZE_MAX + 1) > B.size s then
    .error (.StreamError "End of stream")
  else
    B.readsome s length

/-- Member `ByteArray read(const std::size_t size) const`. -/
def read_ByteArray (B : Stream σ) (s : σ) (size : Nat) : Except Exn (List Byte × σ) :=
  match allocate size 1 with
  | .error x => .error x
  | .ok _ =>
    let data := List.replicate size 0
    match B.read s size with
    | .error x => .error x
    | .ok (nRead, delivered, s1) =>
      if nRead ≠ size then .error (.StreamError "Error while reading stream!")
      else .ok (fill data delivered, s1)

/-- Member `virtual std::size_t write(const byte_t* data, const std::size_t length)`; the
buffer and its length are the list `data`. -/
def write (B : Stream σ) (s : σ) (data : List Byte) : Except Exn (Nat × σ) :=
  B.writesome s data

/-- Member `virtual Stream& write(const ByteArray& data)`. -/
def write_ByteArray (B : Stream σ) (s : σ) (data : List Byte) : Except Exn σ :=
  match B.write s data with
  | .error x => .error x
  | .ok (nWritten, s1) =>
    if nWritten ≠ data.length then .error (.StreamError "Failed to write data to stream!")
    else .ok s1

/-- Member `seekBegin`. -/
def seekBegin (B : Stream σ) (s : σ) : Except Exn σ :=
  B.seek s 0

/-- Member `seekEnd`: the target `size() - 1` is computed in `size_t`. -/
def seekEnd (B : Stream σ) (s : σ) : Except Exn σ :=
  B.seek s ((B.size s + SIZE_MAX) % (SIZE_MAX + 1))

/-- Member `eos`. -/
def eos (B : Stream σ) (s : σ) : Bool :=
  decide (B.tell s ≥ B.size s)

/-- Private member `_read(tag<T>&&)` for a POD type of `sizeofT` bytes; the value is given by
its object representation (the bytes of the uninitialised local before the transfer are taken
as 0). The transfer goes to `readsome` directly, without the bounds check of `read`. -/
def _read_pod (B : Stream σ) (s : σ) (sizeofT : Nat) : Except Exn (List Byte × σ) :=
  match B.readsome s sizeofT with
  | .error x => .error x
  | .ok (nRead, delivered, s1) =>
    if nRead ≠ sizeofT then .error (.StreamError "Error reading POD from stream!")
    else .ok (fill (List.replicate sizeofT 0) delivered, s1)

/-- Private member `_write(const T&, tag<T>&&)` for a POD value with object representation
`pod` (of `sizeof(pod)` bytes). The transfer goes to `writesome` directly. -/
def _write_pod (B : Stream σ) (s : σ) (pod : List Byte) : Except Exn σ :=
  match B.writesome s pod with
  | .error x => .error x
  | .ok (nWritten, s1) =>
    if nWritten ≠ pod.length then .error (.StreamError "Error writing POD to stream!")
    else .ok s1

/-- The explicit specialisations `read<char>`, `read<int8_t>`, ..., `read<double>`: they
differ in the byte-size constant and in the message only. The local variable that receives
the bytes is not initialised in the source; its bytes before the transfer are taken as 0. -/
def read_prim (e : Endian) (T : PrimType) (B : Stream σ) (s : σ) : Except Exn (Int × σ) :=
  match B.read s T.bytes with
  | .error x => .error x
  | .ok (nRead, delivered, s1) =>
    if nRead ≠ T.bytes then .error (.StreamError T.readMsg)
    else .ok (objectValue e T (fill (List.replicate T.sizeof 0) delivered), s1)

/-- The overloads `write(char)`, `write(int8_t)`, ..., `write(double)`. -/
def write_prim (e : Endian) (T : PrimType) (B : Stream σ) (s : σ) (x : Int) : Except Exn σ :=
  match B.write s ((objectBytes e T x).take T.bytes) with
  | .error x => .error x
  | .ok (nWritten, s1) =>
    if nWritten ≠ T.bytes then .error (.StreamError T.writeMsg)
    else .ok s1

/-- Specialisation `read<bool>`. -/
def read_bool (e : Endian) (B : Stream σ) (s : σ) : Except Exn (Bool × σ) :=
  match read_prim e .uint8_t B s with
  | .error x => .error x
  | .ok (v, s1) => .ok (decide (v ≠ 0), s1)

/-- Result of `typeid(T).name()`, which is implementation-defined; the type name stands for
it. -/
def typeid_name (T : PrimType) : String := T.name

/-- Private member `_read(std::size_t lenHint, tag<std::vector<T, A>>&&)` for POD elements:
one bulk transfer of `lenHint * sizeof(T)` bytes. -/
def _read_vector (e : Endian) (T : PrimType) (B : Stream σ) (s : σ) (lenHint : Nat) :
    Except Exn (List Int × σ) :=
  match allocate lenHint T.sizeof with
  | .error x => .error x
  | .ok _ =>
    let vec := List.replicate (lenHint * T.sizeof) 0
    let n := (lenHint * T.sizeof) % (SIZE_MAX + 1)
    match B.read s n with
    | .error x => .error x
    | .ok (nRead, delivered, s1) =>
      if nRead ≠ n then
        .error (.StreamError
          ("Could not read std::vector of type " ++ typeid_name T ++ " from stream"))
      else .ok (vectorOfBytes e T lenHint (fill vec delivered), s1)

/-- Private member `_write(const std::vector<T, A>& vec, tag<std::vector<T, A>>&&)` for POD
elements. A vector holds at most `PTRDIFF_MAX` bytes, so `vec.size() * sizeof(T)` does not
wrap. The name of the stream, which only ends the message, is the argument `name`. -/
def _write_vector (e : Endian) (T : PrimType) (B : Stream σ) (s : σ) (vec : List Int)
    (name : String) : Except Exn σ :=
  let nWrite := vec.length * T.sizeof
  match B.write s ((vectorBytes e T vec).take nWrite) with
  | .error x => .error x
  | .ok (nWritten, s1) =>
    if nWritten ≠ nWrite then
      .error (.StreamError
        ("Could not write std::vector of type " ++ typeid_name T ++ " to stream: " ++ name))
    else .ok s1

/-- Specialisation `read<std::string>(std::size_t lenHint)`; a string is the list of its
characters and the character `0` that pads the fresh string has code 48. -/
def read_string (B : Stream σ) (s : σ) (lenHint : Nat) : Except Exn (List Byte × σ) :=
  match allocate lenHint 1 with
  | .error x => .error x
  | .ok _ =>
    let res := List.replicate lenHint 48
    match B.read s ((lenHint * 1) % (SIZE_MAX + 1)) with
    | .error x => .error x
    | .ok (nRead, delivered, s1) =>
      if nRead ≠ lenHint then .error (.StreamError "Could not read std::string from stream")
      else
        let res := fill res delivered
        let nPos := find res 0
        if nPos ≠ npos ∧ nPos ≠ (res.length + SIZE_MAX) % (SIZE_MAX + 1) then
          .ok (res.take nPos, s1)
        else .ok (res, s1)

/-- The element-wise writing of a sequence, "write iterates and writes each element in
order": the loop `for (const auto& e : vec) this->write<T>(e)` with `write(T)` of a primitive
as the element writer. -/
def write_elements (e : Endian) (T : PrimType) (B : Stream σ) : σ → List Int → Except Exn σ
  | s, [] => .ok s
  | s, x :: xs =>
    match write_prim e T B s x with
    | .error err => .error err
    | .ok s1 => write_elements e T B s1 xs

/-- The element-wise reading of a sequence as the spec words it: `n` successive
single-element reads `read<T>()`, the values collected in order. -/
def read_elements (e : Endian) (T : PrimType) (B : Stream σ) :
    Nat → σ → Except Exn (List Int × σ)
  | 0, s => .ok ([], s)
  | n + 1, s =>
    match read_prim e T B s with
    | .error err => .error err
    | .ok (v, s1) =>
      match read_elements e T B n s1 with
      | .error err => .error err
      | .ok (vs, s2) => .ok (v :: vs, s2)

/-! ### Reads that construct their buffer, on a given machine

The three members that construct a container of a requested size before they transfer, with
the outcome of the construction as the parameter `A`. The construction is the first statement
of each member: when it throws, nothing else of the member is executed. -/

/-- Member `ByteArray read(const std::size_t size) const`, the outcome of `ByteArray data(size)`
given by `A`. -/
def read_ByteArray_on (A : Allocator) (B : Stream σ) (s : σ) (size : Nat) :
    Except Exn (List Byte × σ) :=
  match A size 1 with
  | .error x => .error x
  | .ok _ =>
    let data := List.replicate size 0
    match B.read s size with
    | .error x => .error x
    | .ok (nRead, delivered, s1) =>
      if nRead ≠ size then .error (.StreamError "Error while reading stream!")
      else .ok (fill data delivered, s1)

/-- Private member `_read(std::size_t lenHint, tag<std::vector<T, A>>&&)` for POD elements, the
outcome of `std::vector<T, A> vec(lenHint)` given by `A`; the byte count
`lenHint * sizeof(T)` is computed in `size_t`. -/
def _read_vector_on (A : Allocator) (e : Endian) (T : PrimType) (B : Stream σ) (s : σ)
    (lenHint : Nat) : Except Exn (List Int × σ) :=
  match A lenHint T.sizeof with
  | .error x => .error x
  | .ok _ =>
    let vec := List.replicate (lenHint * T.sizeof) 0
    let n := (lenHint * T.sizeof) % (SIZE_MAX + 1)
    match B.read s n with
    | .error x => .error x
    | .ok (nRead, delivered, s1) =>
      if nRead ≠ n then
        .error (.StreamError
          ("Could not read std::vector of type " ++ typeid_name T ++ " from stream"))
      else .ok (vectorOfBytes e T lenHint (fill vec delivered), s1)

/-- Specialisation `read<std::string>(std::size_t lenHint)`, the outcome of
`std::string res(lenHint, '0')` given by `A`. -/
def read_string_on (A : Allocator) (B : Stream σ) (s : σ) (lenHint : Nat) :
    Except Exn (List Byte × σ) :=
  match A lenHint 1 with
  | .error x => .error x
  | .ok _ =>
    let res := List.replicate lenHint 48
    match B.read s ((lenHint * 1) % (SIZE_MAX + 1)) with
    | .error x => .error x
    | .ok (nRead, delivered, s1) =>
      if nRead ≠ lenHint then .error (.StreamError "Could not read std::string from stream")
      else
        let res := fill res delivered
        let nPos := find res 0
        if nPos ≠ npos ∧ nPos ≠ (res.length + SIZE_MAX) % (SIZE_MAX + 1) then
          .ok (res.take nPos, s1)
        else .ok (res, s1)

/-! ### Ownership wrappers

A `std::unique_ptr<T>` or `std::shared_ptr<T>` is `none` when it is null and `some v` when it
owns the value `v`. The calls `this->read<T>()`, `this->read<T>(lenHint)` and
`this->write<T>(*ptr)` that the wrappers delegate to are the arguments `readT` and `writeT`. -/

/-- Private member `_read(tag<std::unique_ptr<T>>&&)`:
`std::unique_ptr<T>(new T(this->read<T>()))`. -/
def _read_unique_ptr {α : Type} (readT : σ → Except Exn (α × σ)) (s : σ) :
    Except Exn (Option α × σ) :=
  match readT s with
  | .error x => .error x
  | .ok (v, s1) => .ok (some v, s1)

/-- Private member `_read(std::size_t lenHint, tag<std::unique_ptr<T>>&&)`:
`std::unique_ptr<T>(new T(this->read<T>(lenHint)))`. -/
def _read_unique_ptr_lenHint {α : Type} (readT : σ → Nat → Except Exn (α × σ)) (s : σ)
    (lenHint : Nat) : Except Exn (Option α × σ) :=
  match readT s lenHint with
  | .error x => .error x
  | .ok (v, s1) => .ok (some v, s1)

/-- Private member `_write(const std::unique_ptr<T>& ptr, tag<std::unique_ptr<T>>&&)`:
`this->write<T>(*ptr)`. Dereferencing a null pointer is undefined, the pointer is not null. -/
def _write_unique_ptr {α : Type} (writeT : σ → α → Except Exn σ) (s : σ) (ptr : Option α)
    (h : ptr.isSome = true) : Except Exn σ :=
  writeT s (ptr.get h)

/-- Private member `_read(tag<std::shared_ptr<T>>&&)`:
`std::shared_ptr<T>(new T(this->read<T>()))`. -/
def _read_shared_ptr {α : Type} (readT : σ → Except Exn (α × σ)) (s : σ) :
    Except Exn (Option α × σ) :=
  match readT s with
  | .error x => .error x
  | .ok (v, s1) => .ok (some v, s1)

/-- Private member `_read(std::size_t lenHint, tag<std::shared_ptr<T>>&&)`:
`std::shared_ptr<T>(new T(this->read<T>(lenHint)))`. -/
def _read_shared_ptr_lenHint {α : Type} (readT : σ → Nat → Except Exn (α × σ)) (s : σ)
    (lenHint : Nat) : Except Exn (Option α × σ) :=
  match readT s lenHint with
  | .error x => .error x
  | .ok (v, s1) => .ok (some v, s1)

/-- Private member `_write(const std::shared_ptr<T>& ptr, tag<std::shared_ptr<T>>&&)`:
`this->write<T>(*ptr)`. Dereferencing a null pointer is undefined, the pointer is not null. -/
def _write_shared_ptr {α : Type} (writeT : σ → α → Except Exn σ) (s : σ) (ptr : Option α)
    (h : ptr.isSome = true) : Except Exn σ :=
  writeT s (ptr.get h)

/-! ### Writing from another stream

The destination `*this` is the stream `B` in the state `s`, the source `istream` is the stream
`I` in the state `i`; the members of the source that are called are `const` but move its
cursor, so the result carries the new state of both. `assert(false && ...)` is compiled out
(`NDEBUG`); in a build with assertions the program aborts at that point. -/

/-- Member `virtual Stream& write(const Stream& istream, std::size_t offsetBegin,
std::size_t offsetEnd)`. The subtraction `istream.size() - offsetBegin` is reached only with
`offsetBegin < istream.size()` and does not wrap. -/
def write_Stream_range {τ : Type} (B : Stream σ) (I : Stream τ) (s : σ) (i : τ)
    (offsetBegin offsetEnd : Nat) : Except Exn (σ × τ) :=
  if (!I.canRead i) || decide (offsetBegin ≥ I.size i) then
    .ok (s, i)
  else
    let offsetEnd :=
      if (offsetBegin + offsetEnd) % (SIZE_MAX + 1) > I.size i then I.size i - offsetBegin
      else offsetEnd
    match I.seek i offsetBegin with
    | .error x => .error x
    | .ok i1 =>
      match I.read_ByteArray i1 offsetEnd with
      | .error x => .error x
      | .ok (data, i2) =>
        match B.write_ByteArray s data with
        | .error x => .error x
        | .ok s1 => .ok (s1, i2)

/-- Member `virtual Stream& write(const Stream& istream, std::size_t offset)`, documented as
"Write from stream. read stream from offset to the ennd"; `istream.size() - 1` is computed in
`size_t`. -/
def write_Stream_offset {τ : Type} (B : Stream σ) (I : Stream τ) (s : σ) (i : τ)
    (offset : Nat) : Except Exn (σ × τ) :=
  write_Stream_range B I s i offset ((I.size i + SIZE_MAX) % (SIZE_MAX + 1))

/-- Member template `Stream& write(const T& istream)` for a stream type `T`:
`write(istream, 0, istream.size())`. -/
def write_Stream {τ : Type} (B : Stream σ) (I : Stream τ) (s : σ) (i : τ) :
    Except Exn (σ × τ) :=
  write_Stream_range B I s i 0 (I.size i)

end Stream

/-- Equivalence of two outcomes: both succeed with the same result (value and final state), or
both fail with a `StreamError`. -/
def SameOutcome {α : Type} (a b : Except Exn α) : Prop :=
  match a, b with
  | .ok x, .ok y => x = y
  | .error (.StreamError _), .error (.StreamError _) => True
  | _, _ => False

/-! ## An in-memory stream -/

/-- The stored bytes after `data` is written at offset `p`: the bytes before `p` are kept,
`data` replaces what it covers and extends the sequence when it reaches beyond the end. -/
def overwrite (bytes : List Byte) (p : Nat) (data : List Byte) : List Byte :=
  bytes.take p ++ data ++ bytes.drop (p + data.length)

/-- State of an in-memory stream: the stored bytes and the cursor. -/
structure MemoryState where
  bytes : List Byte
  pos : Nat
  deriving DecidableEq, Repr

/-- Modelled from the spec: no implementation of the pure virtual members of `Stream` is part
of the sources. This is the readable and writable in-memory stream of the byte stream
contract: `readsome` delivers the stored bytes from the cursor on (as many as are there, up to
the requested length) and advances the cursor by their number, `writesome` overwrites and
appends at the cursor and accepts every byte, `seek` sets the cursor and fails beyond the end,
`size` is the number of stored bytes. -/
def MemoryStream : Stream MemoryState where
  seek s position :=
    if position > s.bytes.length then .error (.StreamError "Seek beyond end of stream")
    else .ok { s with pos := position }
  size s := s.bytes.length
  tell s := s.pos
  canRead _ := true
  canWrite _ := true
  readsome s length :=
    let delivered := (s.bytes.drop s.pos).take length
    .ok (delivered.length, delivered, { s with pos := s.pos + delivered.length })
  writesome s data :=
    .ok (data.length, { bytes := overwrite s.bytes s.pos data, pos := s.pos + data.length })

/-- Invariant of the data model: the cursor lies within the stored bytes, and the stored
bytes fit in memory. -/
def MemoryState.Valid (s : MemoryState) : Prop :=
  s.pos ≤ s.bytes.length ∧ s.bytes.length ≤ PTRDIFF_MAX

instance (s : MemoryState) : Decidable s.Valid := by
  unfold MemoryState.Valid; exact inferInstance

/-- The `n` bytes stored from the cursor on (fewer when the stream ends before). -/
def MemoryState.field (s : MemoryState) (n : Nat) : List Byte :=
  (s.bytes.drop s.pos).take n

/-- An in-memory stream whose underlying transfers move at most `k` bytes per call and report
the number of bytes they moved: a source or sink that delivers or accepts less than what is
requested. -/
def ThrottledStream (k : Nat) : Stream MemoryState where
  seek := MemoryStream.seek
  size := MemoryStream.size
  tell := MemoryStream.tell
  canRead := MemoryStream.canRead
  canWrite := MemoryStream.canWrite
  readsome s length := MemoryStream.readsome s (min k length)
  writesome s data := MemoryStream.writesome s (data.take k)

/-- A stream object whose capability queries both answer `false` and whose other members
are those of the in-memory stream: the class `Stream` leaves the flags and the transfers to
the implementation and relates them nowhere. -/
def DeniedStream : Stream MemoryState :=
  { MemoryStream with canRead := fun _ => false, canWrite := fun _ => false }

/-- An in-memory stream that keeps a log of the requests made to its underlying transfers:
every call of `readsome` appends the requested length to the log, every call of `writesome`
the length of the buffer it is handed; the bytes and the cursor behave as in the in-memory
stream. -/
def RecordingStream : Stream (MemoryState × List Nat) where
  seek s position :=
    match MemoryStream.seek s.1 position with
    | .error x => .error x
    | .ok m => .ok (m, s.2)
  size s := MemoryStream.size s.1
  tell s := MemoryStream.tell s.1
  canRead s := MemoryStream.canRead s.1
  canWrite s := MemoryStream.canWrite s.1
  readsome s length :=
    match MemoryStream.readsome s.1 length with
    | .error x => .error x
    | .ok (n, delivered, m) => .ok (n, delivered, (m, s.2 ++ [length]))
  writesome s data :=
    match MemoryStream.writesome s.1 data with
    | .error x => .error x
    | .ok (n, m) => .ok (n, (m, s.2 ++ [data.length]))

/-! ## RIFF / WAV chunks (wav.h) -/

/-- Function `MakeRiffTag`: `(tag[3] << 24) | (tag[2] << 16) | (tag[1] << 8) | (tag[0])`
converted to `uint32_t`, for a tag of four plain ASCII characters given by their codes
(`static_assert(N == 5)`: four characters and the terminator). -/
def MakeRiffTag (tag : List Nat) : Nat :=
  ((tag.getD 3 0 <<< 24) ||| (tag.getD 2 0 <<< 16) ||| (tag.getD 1 0 <<< 8) ||| tag.getD 0 0)
    % 2 ^ 32

/-- Character codes of a string literal. -/
def charCodes (str : String) : List Nat :=
  str.toList.map Char.toNat

/-- Constant `kRiffChunkId`. -/
def kRiffChunkId : Nat := MakeRiffTag (charCodes "RIFF")

/-- Constant `kWavFormatId`. -/
def kWavFormatId : Nat := MakeRiffTag (charCodes "WAVE")

/-- Constant `kFmtChunkId`. -/
def kFmtChunkId : Nat := MakeRiffTag (charCodes "fmt ")

/-- Constant `kDataChunkId`. -/
def kDataChunkId : Nat := MakeRiffTag (charCodes "data")

/-- Struct `RiffChunkHeader<Tag>`: two `uint32_t` members, `tag` (initialised to `Tag`) and
`size`. -/
structure RiffChunkHeader where
  tag : Nat
  size : Nat
  deriving DecidableEq, Repr

/-- Struct `WavDataChunk : RiffChunkHeader<kDataChunkId>` with the member `ByteArray data`. -/
structure WavDataChunk extends RiffChunkHeader where
  data : List Byte
  deriving DecidableEq, Repr

/-- A `WavDataChunk` as its constructor leaves the tag: `tag = kDataChunkId`. -/
def WavDataChunk.create (size : Nat) (data : List Byte) : WavDataChunk :=
  { tag := kDataChunkId, size := size, data := data }

/-- Modelled from the spec: the `operator<<` that wav.h applies to a `RiffChunkHeader` is not
part of the sources. By the spec the chunk is written as "tag+size+payload" through the byte
stream contract: the header is written as the value it is, its two `uint32_t` members in
declaration order, through the POD `_write`. -/
def RiffChunkHeader.write {σ : Type} (e : Endian) (B : Stream σ) (s : σ)
    (h : RiffChunkHeader) : Except Exn σ :=
  B._write_pod s (objectBytes e .uint32_t h.tag ++ objectBytes e .uint32_t h.size)

/-- Function `operator<<(Stream& s, const WavDataChunk& chunk)`: the header, then
`chunk.data` (a `ByteArray`, written by `Stream::write(const ByteArray&)`). -/
def WavDataChunk.write {σ : Type} (e : Endian) (B : Stream σ) (s : σ) (chunk : WavDataChunk) :
    Except Exn σ :=
  match chunk.toRiffChunkHeader.write e B s with
  | .error x => .error x
  | .ok s1 => B.write_ByteArray s1 chunk.data

/-! ## Container header and section offsets (cnd.h) -/

/-- Struct `CndHeader`: the count, size and placeholder members of the section table, all
`uint32_t`. The members before `numSounds` (file size, the two fixed strings, type, version,
world and fog parameters) take no part in the section offsets and are left out. -/
structure CndHeader where
  numSounds : Nat
  numMaterials : Nat
  sizeMaterials : Nat
  aMaterials : Nat
  apMatArray : Nat
  numVertices : Nat
  aVerticies : Nat
  unknown28 : Nat
  unknown29 : Nat
  numTexVertices : Nat
  aTexVerticies : Nat
  unknown32 : Nat
  unknown33 : Nat
  numAdjoins : Nat
  aAdjoins : Nat
  numSurfaces : Nat
  aSurfaces : Nat
  numSectors : Nat
  aSectors : Nat
  numAiClasses : Nat
  sizeAiClasses : Nat
  aAiClasses : Nat
  numModels : Nat
  sizeModels : Nat
  aModels : Nat
  numSprites : Nat
  sizeSprites : Nat
  aSprites : Nat
  numKeyframes : Nat
  sizeKeyframes : Nat
  aKeyframes : Nat
  numPuppets : Nat
  sizePuppets : Nat
  aPuppets : Nat
  numSoundClasses : Nat
  sizeSoundClasses : Nat
  aSoundClasses : Nat
  numCogScripts : Nat
  sizeCogScripts : Nat
  aCogScripts : Nat
  numCogs : Nat
  sizeCogs : Nat
  aCogs : Nat
  numThingTemplates : Nat
  sizeThingTemplates : Nat
  aThingTemplates : Nat
  numThings : Nat
  sizeThings : Nat
  aThings : Nat
  pvsSize : Nat
  aPvs : Nat
  deriving DecidableEq, Repr

namespace CND

/-- The sections that `struct CND` has an offset function for, named as the functions are. -/
inductive Section where
  | Materials | Georesource | Sectors | AiClass | Models
  | Sprites | Keyframes | AnimClass | SoundClass | CogScripts
  deriving DecidableEq, Repr

/-- Modelled from the spec: the bodies of the `GetOffset_*` functions are not part of the
sources. The file order of the sections: "materials, georesource, sectors, AI classes, models,
sprites, keyframes, puppets, sound classes, cog scripts". -/
def fileOrder : List Section :=
  [.Materials, .Georesource, .Sectors, .AiClass, .Models,
   .Sprites, .Keyframes, .AnimClass, .SoundClass, .CogScripts]

/-- Modelled from the spec: what no source file under review gives. `headerSize` is the
byte length of the fixed-size header; `georesourceSize` and `sectorsSize` are the byte sizes
of the two structural sections, which have no `size` member in the header and for which the
spec names "a closed-form byte-size formula" over the header without stating it. -/
structure Layout where
  headerSize : Nat
  georesourceSize : CndHeader → Nat
  sectorsSize : CndHeader → Nat

/-- Modelled from the spec: the byte size of a section. A sized-list section has the size
that its `size` member of the header declares (the puppets members belong to the anim
classes); a structural section has the size its formula gives. -/
def sectionSize (L : Layout) (h : CndHeader) : Section → Nat
  | .Materials => h.sizeMaterials
  | .Georesource => L.georesourceSize h
  | .Sectors => L.sectorsSize h
  | .AiClass => h.sizeAiClasses
  | .Models => h.sizeModels
  | .Sprites => h.sizeSprites
  | .Keyframes => h.sizeKeyframes
  | .AnimClass => h.sizePuppets
  | .SoundClass => h.sizeSoundClasses
  | .CogScripts => h.sizeCogScripts

/-- Modelled from the spec: the offset of a section is computed "from header fields
(cumulative sizes of preceding sections plus header length)". -/
def offset_of (L : Layout) (h : CndHeader) (sec : Section) : Nat :=
  L.headerSize + ((fileOrder.takeWhile (fun x => decide (x ≠ sec))).map (sectionSize L h)).sum

/-- Modelled from the spec: function `GetOffset_Materials`, declared in cnd.h. -/
def GetOffset_Materials (L : Layout) (h : CndHeader) : Nat := offset_of L h .Materials

/-- Modelled from the spec: function `GetOffset_Georesource`, declared in cnd.h. -/
def GetOffset_Georesource (L : Layout) (h : CndHeader) : Nat := offset_of L h .Georesource

/-- Modelled from the spec: function `GetOffset_Sectors`, declared in cnd.h. -/
def GetOffset_Sectors (L : Layout) (h : CndHeader) : Nat := offset_of L h .Sectors

/-- Modelled from the spec: function `GetOffset_AiClass`, declared in cnd.h. -/
def GetOffset_AiClass (L : Layout) (h : CndHeader) : Nat := offset_of L h .AiClass

/-- Modelled from the spec: function `GetOffset_Models`, declared in cnd.h. -/
def GetOffset_Models (L : Layout) (h : CndHeader) : Nat := offset_of L h .Models

/-- Modelled from the spec: function `GetOffset_Sprites`, declared in cnd.h. -/
def GetOffset_Sprites (L : Layout) (h : CndHeader) : Nat := offset_of L h .Sprites

/-- Modelled from the spec: function `GetOffset_Keyframes`, declared in cnd.h. -/
def GetOffset_Keyframes (L : Layout) (h : CndHeader) : Nat := offset_of L h .Keyframes

/-- Modelled from the spec: function `GetOffset_AnimClass`, declared in cnd.h. -/
def GetOffset_AnimClass (L : Layout) (h : CndHeader) : Nat := offset_of L h .AnimClass

/-- Modelled from the spec: function `GetOffset_SoundClass`, declared in cnd.h. -/
def GetOffset_SoundClass (L : Layout) (h : CndHeader) : Nat := offset_of L h .SoundClass

/-- Modelled from the spec: function `GetOffset_CogScripts`, declared in cnd.h. -/
def GetOffset_CogScripts (L : Layout) (h : CndHeader) : Nat := offset_of L h .CogScripts

end CND

/-! ## Tokens of the text tokenizer (token.h) -/

namespace text

/-- Enumeration `Token::Type`. -/
inductive TokenType where
  | Invalid | EndOfFile | EndOfLine | Identifier | String
  | Punctuator | Integer | HexInteger | OctInteger | FloatNumber
  deriving DecidableEq, Repr

/-- Number base that a `std::stringstream` extracts integers in: decimal unless the
manipulator `std::oct` or `std::hex` was applied. -/
inductive Radix where
  | dec | oct | hex
  deriving DecidableEq, Repr

/-- Exception `TokenizerError` (its header is not part of the sources): the message and the
location it is constructed from. -/
structure TokenizerError (Loc : Type) where
  what : String
  loc : Loc

/-- Class `Token`: the members `m_type`, `m_value` and `m_loc`. The type `diagnostic_location`
of the last one is declared in a header that is not part of the sources and is the parameter
`Loc`. -/
structure Token (Loc : Type) where
  m_type : TokenType
  m_value : String
  m_loc : Loc

namespace Token

variable {Loc : Type}

/-- Member `isNumber`. -/
def isNumber (t : Token Loc) : Bool :=
  t.m_type == .Integer || t.m_type == .HexInteger || t.m_type == .OctInteger
    || t.m_type == .FloatNumber

/-- Member template `getNumber<T>`. The extraction `ss >> result` of the standard library is
the argument `extract`: from the number base and the text it gives the value extracted, or
`none` when the stream is left in the failed state. -/
def getNumber {DT : Type} (extract : Radix → String → Option DT) (t : Token Loc) :
    Except (TokenizerError Loc) DT :=
  let base : Radix :=
    match t.m_type with
    | .OctInteger => .oct
    | .HexInteger => .hex
    | _ => .dec
  let result := extract base t.m_value
  if (!t.isNumber) || result.isNone then
    .error ⟨"invalid numeric conversion from string", t.m_loc⟩
  else
    match result with
    | some v => .ok v
    | none => .error ⟨"invalid numeric conversion from string", t.m_loc⟩

end Token

end text

/-! ## Text resource writer (text_resource_writer.cpp) -/

/-- An object that a `const std::size_t&` in `TextResourceWriter::write` can refer to: the
temporary that holds the result of `text.size()`, or one of the parameters `minSep` and
`fieldWidth`. `std::clamp` and `std::minmax` return references to their arguments. -/
inductive SizeRef where
  | textSize | minSep | fieldWidth
  deriving DecidableEq, Repr

/-- Function `std::clamp(v, lo, hi)`, which returns a reference to one of its arguments:
`(v < lo) ? lo : (hi < v) ? hi : v`; `val` gives the values of the objects. -/
def std_clamp (val : SizeRef → Nat) (v lo hi : SizeRef) : SizeRef :=
  if val v < val lo then lo else if val hi < val v then hi else v

/-- Function `std::minmax(a, b)`, which returns a pair of references to its arguments:
`(b < a) ? pair(b, a) : pair(a, b)`. -/
def std_minmax (val : SizeRef → Nat) (a b : SizeRef) : SizeRef × SizeRef :=
  if val b < val a then (b, a) else (a, b)

namespace TextResourceWriter

/-- Modelled from the spec: the `operator<<` of `OutputStream` is not part of the sources.
Member `write(std::string_view text)`, `ostream_ << text`: the characters of the text are
appended to the output, which is the list `out` of the characters emitted so far. -/
def write (out : List Char) (text : List Char) : List Char :=
  out ++ text

/-- Member `indent(std::size_t width, char indch)`: `std::string indent(width, indch)` is
constructed, with the outcome that `A` gives, and written. -/
def indent (A : Allocator) (out : List Char) (width : Nat) (indch : Char) :
    Except Exn (List Char) :=
  match A width 1 with
  | .error x => .error x
  | .ok _ => .ok (write out (List.replicate width indch))

/-- Values of the three objects that the references of `write` can refer to, `textSize` being
what the temporary `text.size()` holds. -/
def sizeValue (textSize minSep fieldWidth : Nat) : SizeRef → Nat
  | .textSize => textSize
  | .minSep => minSep
  | .fieldWidth => fieldWidth

/-- The local `indw` of the member `write(std::string_view text, std::size_t fieldWidth,
std::size_t minSep, char indentChar)`, the number of separators:
`auto[min, max] = std::minmax(fieldWidth, std::clamp(text.size(), minSep, fieldWidth));`
`auto indw = std::max(minSep, max - min);`. The names `min` and `max` of the structured
binding are references: while the declaration is evaluated the temporary `text.size()` holds
the length `textSize` of the text; when `max - min` is evaluated, after the declaration, that
temporary has been destroyed, and `expired` is the value that a read through a reference to it
then gives. The difference is computed in `size_t`. -/
def write_field_indw (textSize fieldWidth minSep expired : Nat) : Nat :=
  let mm := std_minmax (sizeValue textSize minSep fieldWidth) .fieldWidth
    (std_clamp (sizeValue textSize minSep fieldWidth) .textSize .minSep .fieldWidth)
  max minSep
    ((sizeValue expired minSep fieldWidth mm.2 + (SIZE_MAX + 1)
        - sizeValue expired minSep fieldWidth mm.1) % (SIZE_MAX + 1))

/-- Member `write(std::string_view text, std::size_t fieldWidth, std::size_t minSep,
char indentChar)`: the text is written, then `indw` separators through `indent`. -/
def write_field (A : Allocator) (out : List Char) (text : List Char) (fieldWidth minSep : Nat)
    (indentChar : Char) (expired : Nat) : Except Exn (List Char) :=
  let out1 := write out text
  let indw := write_field_indw text.length fieldWidth minSep expired
  indent A out1 indw indentChar

end TextResourceWriter

/-- The value `std::clamp(v, lo, hi)` for `lo ≤ hi`. -/
def clamp (v lo hi : Nat) : Nat :=
  if v < lo then lo else if hi < v then hi else v

/-! ## Basic facts -/

theorem fill_of_length_eq (init delivered : List Byte) (h : delivered.length = init.length) :
    fill init delivered = delivered := by
  unfold fill
  rw [h, List.drop_length, List.append_nil, ← h, List.take_length]

theorem PrimType.bytes_eq_sizeof (T : PrimType) : T.bytes = T.sizeof := by
  cases T <;> rfl

theorem length_toBytesLE (k x : Nat) : (toBytesLE k x).length = k := by
  induction k generalizing x with
  | zero => rfl
  | succ k ih => simp [toBytesLE, ih]

theorem length_objectBytes (e : Endian) (T : PrimType) (x : Int) :
    (objectBytes e T x).length = T.sizeof := by
  cases e <;> simp [objectBytes, length_toBytesLE]

theorem allocate_ok (count elemSize : Nat) (h : count * elemSize ≤ PTRDIFF_MAX) :
    allocate count elemSize = .ok () := by
  unfold allocate
  rw [if_neg (by omega)]

theorem MemoryState.length_field (s : MemoryState) (L : Nat) (h : s.pos + L ≤ s.bytes.length) :
    (s.field L).length = L := by
  unfold MemoryState.field
  rw [List.length_take, List.length_drop]
  omega

theorem MemoryState.getElem?_field (s : MemoryState) (L i : Nat) (hi : i < L) :
    (s.field L)[i]? = s.bytes[s.pos + i]? := by
  unfold MemoryState.field
  rw [List.getElem?_take_of_lt hi, List.getElem?_drop]

/-- The bounds check of `Stream::read` fires whenever the sum `tell() + length` does not
wrap. -/
theorem Stream.read_end_of_stream {σ : Type} (B : Stream σ) (s : σ) (L : Nat)
    (hno : B.tell s + L ≤ SIZE_MAX) (h : B.size s < B.tell s + L) :
    B.read s L = .error (.StreamError "End of stream") := by
  unfold Stream.read
  rw [Nat.mod_eq_of_lt (by omega)]
  simp [h]

/-- When the bounds check passes, `Stream::read` is the underlying transfer. -/
theorem Stream.read_eq_readsome {σ : Type} (B : Stream σ) (s : σ) (L : Nat)
    (h : (B.tell s + L) % (SIZE_MAX + 1) ≤ B.size s) :
    B.read s L = B.readsome s L := by
  unfold Stream.read
  rw [if_neg (by omega)]

/-- A read that stays within the stored bytes of the in-memory stream is complete. -/
theorem MemoryStream_read_ok (s : MemoryState) (L : Nat) (hn : s.bytes.length ≤ SIZE_MAX)
    (h : s.pos + L ≤ s.bytes.length) :
    Stream.read MemoryStream s L = .ok (L, s.field L, { s with pos := s.pos + L }) := by
  have hlen := s.length_field L h
  rw [Stream.read_eq_readsome]
  · unfold MemoryState.field at hlen
    simp only [MemoryStream, hlen, MemoryState.field]
  · have h1 : MemoryStream.tell s + L ≤ MemoryStream.size s := h
    have h2 : MemoryStream.size s ≤ SIZE_MAX := hn
    rw [Nat.mod_eq_of_lt (by omega)]
    exact h1

theorem PTRDIFF_MAX_le_SIZE_MAX : PTRDIFF_MAX ≤ SIZE_MAX := by
  decide

/-- Position of the first occurrence of a character. -/
theorem indexOf_eq_of_first (c : Byte) (f : List Byte) (k : Nat) (hz : f[k]? = some c)
    (hfirst : ∀ j, j < k → f[j]? ≠ some c) : c ∈ f ∧ f.indexOf c = k := by
  induction f generalizing k with
  | nil => simp at hz
  | cons b f ih =>
    cases k with
    | zero =>
      simp only [List.getElem?_cons_zero, Option.some.injEq] at hz
      subst hz
      exact ⟨List.mem_cons_self _ _, List.indexOf_cons_self _ _⟩
    | succ k =>
      have hb : b ≠ c := by
        have := hfirst 0 (Nat.succ_pos k)
        simpa using this
      have hrec := ih k (by simpa using hz) (fun j hj => by
        have := hfirst (j + 1) (Nat.succ_lt_succ hj)
        simpa using this)
      exact ⟨List.mem_cons_of_mem _ hrec.1, by rw [List.indexOf_cons_ne _ hb, hrec.2]⟩

theorem find_eq_of_first (c : Byte) (f : List Byte) (k : Nat) (hz : f[k]? = some c)
    (hfirst : ∀ j, j < k → f[j]? ≠ some c) : find f c = k := by
  have h := indexOf_eq_of_first c f k hz hfirst
  unfold find
  rw [if_pos h.1, h.2]

theorem find_no_early_terminator (c : Byte) (f : List Byte)
    (hno : ∀ j, j < f.length - 1 → f[j]? ≠ some c) :
    find f c = npos ∨ (0 < f.length ∧ find f c = f.length - 1) := by
  unfold find
  by_cases hc : c ∈ f
  · right
    have hlt : f.indexOf c < f.length := List.indexOf_lt_length.2 hc
    have hget : f[f.indexOf c]? = some c := by
      rw [List.getElem?_eq_getElem hlt, List.getElem_indexOf hlt]
    have : ¬ (f.indexOf c < f.length - 1) := fun hlt2 => hno _ hlt2 hget
    rw [if_pos hc]
    omega
  · left
    rw [if_neg hc]

/-- The specialisation `read<std::string>` on a field that lies within the stored bytes: the
transfer is complete and the result is decided by the position of the first terminator. -/
theorem MemoryStream_read_string_ok (s : MemoryState) (lenHint : Nat)
    (hn : s.bytes.length ≤ PTRDIFF_MAX) (h : s.pos + lenHint ≤ s.bytes.length) :
    Stream.read_string MemoryStream s lenHint
      = if find (s.field lenHint) 0 ≠ npos
            ∧ find (s.field lenHint) 0 ≠ (lenHint + SIZE_MAX) % (SIZE_MAX + 1) then
          .ok ((s.field lenHint).take (find (s.field lenHint) 0),
            { s with pos := s.pos + lenHint })
        else .ok (s.field lenHint, { s with pos := s.pos + lenHint }) := by
  have hlen := s.length_field lenHint h
  have ha : allocate lenHint 1 = .ok () := allocate_ok _ _ (by omega)
  have hm : lenHint * 1 % (SIZE_MAX + 1) = lenHint := by
    simp only [PTRDIFF_MAX, SIZE_MAX] at *
    omega
  have hs : s.bytes.length ≤ SIZE_MAX := le_trans hn PTRDIFF_MAX_le_SIZE_MAX
  have hf : fill (List.replicate lenHint 48) (s.field lenHint) = s.field lenHint :=
    fill_of_length_eq _ _ (by simp [hlen])
  simp only [Stream.read_string, ha, hm, MemoryStream_read_ok s lenHint hs h, ne_eq,
    not_true_eq_false, if_false, hf, hlen]

/-- The machine without a limit of its own satisfies what holds on every machine. -/
theorem allocate_lawful : Allocator.Lawful allocate := by
  refine ⟨?_, ?_⟩
  · intro c e h
    unfold allocate at h
    split_ifs at h with hc
    omega
  · intro c e x h msg
    unfold allocate at h
    split_ifs at h with hc
    cases h
    intro hx
    cases hx

/-- The machine without a limit of its own is the machine with both limits at
`PTRDIFF_MAX`. -/
theorem allocate_eq_limited : allocate = Allocator.limited PTRDIFF_MAX PTRDIFF_MAX := by
  funext count elemSize
  unfold allocate Allocator.limited
  split_ifs <;> rfl

/-- A machine with limits satisfies what holds on every machine when its `max_size()` stays
within `PTRDIFF_MAX` bytes. -/
theorem Allocator.limited_lawful (maxBytes capacity : Nat) (h : maxBytes ≤ PTRDIFF_MAX) :
    Allocator.Lawful (Allocator.limited maxBytes capacity) := by
  refine ⟨?_, ?_⟩
  · intro c e hok
    unfold Allocator.limited at hok
    split_ifs at hok with h1 h2
    omega
  · intro c e x hx msg
    unfold Allocator.limited at hx
    split_ifs at hx with h1 h2
    · cases hx
      intro hx
      cases hx
    · cases hx
      intro hx
      cases hx

/-- The member `read(size)` of the machine without a limit of its own. -/
theorem Stream.read_ByteArray_eq_on {σ : Type} (B : Stream σ) (s : σ) (n : Nat) :
    B.read_ByteArray s n = Stream.read_ByteArray_on allocate B s n := rfl

/-- The specialisation `read<std::string>` of the machine without a limit of its own. -/
theorem Stream.read_string_eq_on {σ : Type} (B : Stream σ) (s : σ) (n : Nat) :
    B.read_string s n = Stream.read_string_on allocate B s n := rfl

/-- The bulk vector read of the machine without a limit of its own. -/
theorem Stream._read_vector_eq_on {σ : Type} (e : Endian) (T : PrimType) (B : Stream σ) (s : σ)
    (n : Nat) :
    Stream._read_vector e T B s n = Stream._read_vector_on allocate e T B s n := rfl

/-- A construction that throws ends the bulk read with its exception, on every stream. -/
theorem Stream._read_vector_on_error {σ : Type} (A : Allocator) (e : Endian) (T : PrimType)
    (B : Stream σ) (s : σ) (n : Nat) (x : Exn) (h : A n T.sizeof = .error x) :
    Stream._read_vector_on A e T B s n = .error x := by
  simp only [Stream._read_vector_on, h]

/-- A construction that throws ends the string read with its exception, on every stream. -/
theorem Stream.read_string_on_error {σ : Type} (A : Allocator) (B : Stream σ) (s : σ) (n : Nat)
    (x : Exn) (h : A n 1 = .error x) :
    Stream.read_string_on A B s n = .error x := by
  simp only [Stream.read_string_on, h]

/-- A construction that throws ends `read(size)` with its exception, on every stream. -/
theorem Stream.read_ByteArray_on_error {σ : Type} (A : Allocator) (B : Stream σ) (s : σ)
    (n : Nat) (x : Exn) (h : A n 1 = .error x) :
    Stream.read_ByteArray_on A B s n = .error x := by
  simp only [Stream.read_ByteArray_on, h]

/-- The recording stream answers a request within the stored bytes in full and logs the
requested length. -/
theorem RecordingStream_readsome (m : MemoryState) (log : List Nat) (L : Nat)
    (h : m.pos + L ≤ m.bytes.length) :
    RecordingStream.readsome (m, log) L
      = .ok (L, m.field L, ({ m with pos := m.pos + L }, log ++ [L])) := by
  have hlen := m.length_field L h
  unfold MemoryState.field at hlen
  simp only [RecordingStream, MemoryStream, hlen, MemoryState.field]

/-- The recording stream accepts every buffer and logs its length. -/
theorem RecordingStream_writesome (m : MemoryState) (log : List Nat) (data : List Byte) :
    RecordingStream.writesome (m, log) data
      = .ok (data.length, (⟨overwrite m.bytes m.pos data, m.pos + data.length⟩,
          log ++ [data.length])) := rfl

/-! ## Byte stream contract -/

/-- Claim C1. On the in-memory stream, whose transfer delivers the stored bytes, a
`read(L)` at position `p` with `p + L` within the size returns exactly the `L` bytes stored at
the offsets `p .. p + L - 1` and leaves the position at `p + L`. -/
theorem read_ByteArray_exact (s : MemoryState) (L : Nat) (hn : s.bytes.length ≤ PTRDIFF_MAX)
    (h : s.pos + L ≤ s.bytes.length) :
    Stream.read_ByteArray MemoryStream s L = .ok (s.field L, { s with pos := s.pos + L })
      ∧ (s.field L).length = L
      ∧ ∀ i, i < L → (s.field L)[i]? = s.bytes[s.pos + i]? := by
  have hlen := s.length_field L h
  have hs : s.bytes.length ≤ SIZE_MAX := le_trans hn PTRDIFF_MAX_le_SIZE_MAX
  refine ⟨?_, hlen, fun i hi => s.getElem?_field L i hi⟩
  have ha : allocate L 1 = .ok () := allocate_ok _ _ (by omega)
  simp only [Stream.read_ByteArray, ha, MemoryStream_read_ok s L hs h, ne_eq, not_true_eq_false,
    if_false]
  rw [fill_of_length_eq _ _ (by simp [hlen])]

/-- Witness of C1: three bytes read at position 1 of a five-byte stream. -/
theorem read_ByteArray_exact_witness :
    Stream.read_ByteArray MemoryStream ⟨[1, 2, 3, 4, 5], 1⟩ 3
      = .ok ([2, 3, 4], ⟨[1, 2, 3, 4, 5], 4⟩) :=
  (read_ByteArray_exact ⟨[1, 2, 3, 4, 5], 1⟩ 3 (by decide) (by decide)).1

/-- Claim C2, at the failing input. With position 1, size 1 and length `SIZE_MAX` no byte is
available, yet `tell() + length` wraps to 0, the bounds check of `Stream::read` does not fire
and the call returns the short count 0 of the underlying transfer instead of failing with the
end-of-stream `StreamError`. -/
theorem read_length_overflow_short_read :
    MemoryStream.size ⟨[7], 1⟩ - MemoryStream.tell ⟨[7], 1⟩ < SIZE_MAX
      ∧ Stream.read MemoryStream ⟨[7], 1⟩ SIZE_MAX = .ok (0, [], ⟨[7], 1⟩) :=
  ⟨by decide, rfl⟩

/-- Claim C3. For every primitive type `T`, every stream `B` and every state `s`:
the byte-size constant of `read<T>()` and `write(T)` is `sizeof(T)`, and the bytes that
`write(T)` hands over are the `sizeof(T)` bytes of the object representation of the value.
`read<T>()`: when the bounds check passes, the outcome is decided by the answer of `readsome`
to the request for exactly `sizeof(T)` bytes: a report of `sizeof(T)` bytes gives the value of
the bytes delivered and the state that `readsome` left, an exception of `readsome` is passed
on; a report of any other count gives a `StreamError`; two streams that agree on position,
size and on the answer to that one request have the same outcome. `write(T)`: the outcome is
decided by the answer of `writesome` to the `sizeof(T)` bytes of the value, success on a report
of `sizeof(T)`, a `StreamError` on any other count. The same holds for the generic POD `_read`
of a value of `sizeofT` bytes and `_write` of a value with the object representation `pod`,
which call `readsome` and `writesome` directly. On the recording stream, whose log lists the
length of every request made to the underlying transfers, each of the four operations adds
exactly one entry to the log, the size of the value. -/
theorem primitive_exact_transfer {σ : Type} (e : Endian) (T : PrimType) (B : Stream σ) (s : σ)
    (x : Int) (sizeofT : Nat) (pod : List Byte) (m : MemoryState) (log : List Nat) :
    T.bytes = T.sizeof
    ∧ (objectBytes e T x).length = T.sizeof
    ∧ (objectBytes e T x).take T.bytes = objectBytes e T x
    -- read<T>()
    ∧ ((B.tell s + T.sizeof) % (SIZE_MAX + 1) ≤ B.size s →
        (∀ d s1, B.readsome s T.sizeof = .ok (T.sizeof, d, s1) →
          Stream.read_prim e T B s
            = .ok (objectValue e T (fill (List.replicate T.sizeof 0) d), s1))
        ∧ (∀ err, B.readsome s T.sizeof = .error err → Stream.read_prim e T B s = .error err))
    ∧ (∀ n d s1, B.readsome s T.sizeof = .ok (n, d, s1) → n ≠ T.sizeof →
        ∃ msg, Stream.read_prim e T B s = .error (.StreamError msg))
    ∧ (∀ B2 : Stream σ, B2.tell s = B.tell s → B2.size s = B.size s →
        B2.readsome s T.sizeof = B.readsome s T.sizeof →
        Stream.read_prim e T B2 s = Stream.read_prim e T B s)
    ∧ (m.pos + T.sizeof ≤ m.bytes.length → m.bytes.length ≤ SIZE_MAX →
        Stream.read_prim e T RecordingStream (m, log)
          = .ok (objectValue e T (m.field T.sizeof),
              ({ m with pos := m.pos + T.sizeof }, log ++ [T.sizeof])))
    -- write(T)
    ∧ (∀ s1, B.writesome s (objectBytes e T x) = .ok (T.sizeof, s1) →
        Stream.write_prim e T B s x = .ok s1)
    ∧ (∀ err, B.writesome s (objectBytes e T x) = .error err →
        Stream.write_prim e T B s x = .error err)
    ∧ (∀ n s1, B.writesome s (objectBytes e T x) = .ok (n, s1) → n ≠ T.sizeof →
        ∃ msg, Stream.write_prim e T B s x = .error (.StreamError msg))
    ∧ (∀ B2 : Stream σ,
        B2.writesome s (objectBytes e T x) = B.writesome s (objectBytes e T x) →
        Stream.write_prim e T B2 s x = Stream.write_prim e T B s x)
    ∧ Stream.write_prim e T RecordingStream (m, log) x
        = .ok (⟨overwrite m.bytes m.pos (objectBytes e T x), m.pos + T.sizeof⟩,
            log ++ [T.sizeof])
    -- generic POD _read
    ∧ (∀ d s1, B.readsome s sizeofT = .ok (sizeofT, d, s1) →
        Stream._read_pod B s sizeofT = .ok (fill (List.replicate sizeofT 0) d, s1))
    ∧ (∀ err, B.readsome s sizeofT = .error err → Stream._read_pod B s sizeofT = .error err)
    ∧ (∀ n d s1, B.readsome s sizeofT = .ok (n, d, s1) → n ≠ sizeofT →
        ∃ msg, Stream._read_pod B s sizeofT = .error (.StreamError msg))
    ∧ (∀ B2 : Stream σ, B2.readsome s sizeofT = B.readsome s sizeofT →
        Stream._read_pod B2 s sizeofT = Stream._read_pod B s sizeofT)
    ∧ (m.pos + sizeofT ≤ m.bytes.length →
        Stream._read_pod RecordingStream (m, log) sizeofT
          = .ok (m.field sizeofT, ({ m with pos := m.pos + sizeofT }, log ++ [sizeofT])))
    -- generic POD _write
    ∧ (∀ s1, B.writesome s pod = .ok (pod.length, s1) → Stream._write_pod B s pod = .ok s1)
    ∧ (∀ err, B.writesome s pod = .error err → Stream._write_pod B s pod = .error err)
    ∧ (∀ n s1, B.writesome s pod = .ok (n, s1) → n ≠ pod.length →
        ∃ msg, Stream._write_pod B s pod = .error (.StreamError msg))
    ∧ (∀ B2 : Stream σ, B2.writesome s pod = B.writesome s pod →
        Stream._write_pod B2 s pod = Stream._write_pod B s pod)
    ∧ Stream._write_pod RecordingStream (m, log) pod
        = .ok (⟨overwrite m.bytes m.pos pod, m.pos + pod.length⟩, log ++ [pod.length]) := by
  have hb := PrimType.bytes_eq_sizeof T
  have hl := length_objectBytes e T x
  have ht : (objectBytes e T x).take T.sizeof = objectBytes e T x :=
    List.take_of_length_le (by omega)
  refine ⟨hb, hl, by rw [hb]; exact ht, ?_, ?_, ?_, ?_, ?_, ?_, ?_, ?_, ?_, ?_, ?_, ?_, ?_, ?_,
    ?_, ?_, ?_, ?_, ?_⟩
  · intro hg
    refine ⟨?_, ?_⟩
    · intro d s1 hr
      simp only [Stream.read_prim, hb, Stream.read_eq_readsome B s T.sizeof hg, hr, ne_eq,
        not_true_eq_false, if_false]
    · intro err hr
      simp only [Stream.read_prim, hb, Stream.read_eq_readsome B s T.sizeof hg, hr]
  · intro n d s1 hr hne
    simp only [Stream.read_prim, Stream.read, hb]
    split_ifs with hg
    · exact ⟨_, rfl⟩
    · simp only [hr, hne, ne_eq, not_false_eq_true, if_true]
      exact ⟨_, rfl⟩
  · intro B2 ht hs hr
    simp only [Stream.read_prim, Stream.read, hb, ht, hs, hr]
  · intro h hn
    have hlen := m.length_field T.sizeof h
    have hf : fill (List.replicate T.sizeof 0) (m.field T.sizeof) = m.field T.sizeof :=
      fill_of_length_eq _ _ (by simp [hlen])
    have hg : (RecordingStream.tell (m, log) + T.sizeof) % (SIZE_MAX + 1)
        ≤ RecordingStream.size (m, log) := by
      show (m.pos + T.sizeof) % (SIZE_MAX + 1) ≤ m.bytes.length
      rw [Nat.mod_eq_of_lt (by omega)]
      exact h
    simp only [Stream.read_prim, hb, Stream.read_eq_readsome _ _ T.sizeof hg,
      RecordingStream_readsome m log T.sizeof h, ne_eq, not_true_eq_false, if_false, hf]
  · intro s1 hw
    simp only [Stream.write_prim, Stream.write, hb, ht, hw, ne_eq, not_true_eq_false, if_false]
  · intro err hw
    simp only [Stream.write_prim, Stream.write, hb, ht, hw]
  · intro n s1 hw hne
    simp only [Stream.write_prim, Stream.write, hb, ht, hw, hne, ne_eq, not_false_eq_true,
      if_true]
    exact ⟨_, rfl⟩
  · intro B2 hw
    simp only [Stream.write_prim, Stream.write, hb, ht, hw]
  · simp only [Stream.write_prim, Stream.write, RecordingStream_writesome, hb, ht, hl, ne_eq,
      not_true_eq_false, if_false]
  · intro d s1 hr
    simp only [Stream._read_pod, hr, ne_eq, not_true_eq_false, if_false]
  · intro err hr
    simp only [Stream._read_pod, hr]
  · intro n d s1 hr hne
    simp only [Stream._read_pod, hr, hne, ne_eq, not_false_eq_true, if_true]
    exact ⟨_, rfl⟩
  · intro B2 hr
    simp only [Stream._read_pod, hr]
  · intro h
    have hlen := m.length_field sizeofT h
    have hf : fill (List.replicate sizeofT 0) (m.field sizeofT) = m.field sizeofT :=
      fill_of_length_eq _ _ (by simp [hlen])
    simp only [Stream._read_pod, RecordingStream_readsome m log sizeofT h, ne_eq,
      not_true_eq_false, if_false, hf]
  · intro s1 hw
    simp only [Stream._write_pod, hw, ne_eq, not_true_eq_false, if_false]
  · intro err hw
    simp only [Stream._write_pod, hw]
  · intro n s1 hw hne
    simp only [Stream._write_pod, hw, hne, ne_eq, not_false_eq_true, if_true]
    exact ⟨_, rfl⟩
  · intro B2 hw
    simp only [Stream._write_pod, hw]
  · simp only [Stream._write_pod, RecordingStream_writesome, ne_eq, not_true_eq_false,
      if_false]

/-- Witness of C3: a transfer that moves one byte where `int32_t` needs four makes both
`read<int32_t>()` and `write(int32_t)` fail with a `StreamError`; on the recording stream
`read<int32_t>()` returns the value of the four stored bytes after one request, for four
bytes, and the generic POD read of a value of three bytes makes one request for three. -/
theorem primitive_exact_transfer_witness :
    (∃ msg, Stream.read_prim .little .int32_t (ThrottledStream 1) ⟨[1, 2, 3, 4], 0⟩
        = .error (.StreamError msg))
    ∧ (∃ msg, Stream.write_prim .little .int32_t (ThrottledStream 1) ⟨[], 0⟩ 5
        = .error (.StreamError msg))
    ∧ Stream.read_prim .little .int32_t RecordingStream (⟨[1, 2, 3, 4], 0⟩, [])
        = .ok (objectValue .little .int32_t (MemoryState.field ⟨[1, 2, 3, 4], 0⟩ 4),
            (⟨[1, 2, 3, 4], 0 + 4⟩, [] ++ [4]))
    ∧ Stream._read_pod RecordingStream (⟨[1, 2, 3, 4], 0⟩, []) 3
        = .ok (MemoryState.field ⟨[1, 2, 3, 4], 0⟩ 3, (⟨[1, 2, 3, 4], 0 + 3⟩, [] ++ [3])) :=
  ⟨(primitive_exact_transfer .little .int32_t (ThrottledStream 1) ⟨[1, 2, 3, 4], 0⟩ 5 4
      [] ⟨[], 0⟩ []).2.2.2.2.1 1 [1] ⟨[1, 2, 3, 4], 1⟩ rfl (by decide),
   (primitive_exact_transfer .little .int32_t (ThrottledStream 1) ⟨[], 0⟩ 5 4
      [] ⟨[], 0⟩ []).2.2.2.2.2.2.2.2.2.1 1 ⟨[5], 1⟩ rfl (by decide),
   (primitive_exact_transfer .little .int32_t MemoryStream ⟨[], 0⟩ 5 3
      [] ⟨[1, 2, 3, 4], 0⟩ []).2.2.2.2.2.2.1 (by decide) (by decide),
   (primitive_exact_transfer .little .int32_t MemoryStream ⟨[], 0⟩ 5 3
      [] ⟨[1, 2, 3, 4], 0⟩ []).2.2.2.2.2.2.2.2.2.2.2.2.2.2.2.2.1 (by decide)⟩

/-! ## Fixed-capacity strings -/

/-- Claim C4. When the first terminator of a field of `lenHint` bytes is at index `k` with
`k < lenHint - 1`, `read<std::string>(lenHint)` returns exactly the `k` bytes before it,
whatever follows that terminator. -/
theorem read_string_first_terminator (s : MemoryState) (lenHint k : Nat)
    (hn : s.bytes.length ≤ PTRDIFF_MAX) (h : s.pos + lenHint ≤ s.bytes.length)
    (hk : k < lenHint - 1) (hz : (s.field lenHint)[k]? = some 0)
    (hfirst : ∀ j, j < k → (s.field lenHint)[j]? ≠ some 0) :
    Stream.read_string MemoryStream s lenHint
        = .ok ((s.field lenHint).take k, { s with pos := s.pos + lenHint })
      ∧ ((s.field lenHint).take k).length = k := by
  have hlen := s.length_field lenHint h
  have hfind := find_eq_of_first 0 _ k hz hfirst
  constructor
  · rw [MemoryStream_read_string_ok s lenHint hn h, hfind, if_pos]
    simp only [npos, PTRDIFF_MAX, SIZE_MAX] at *
    omega
  · rw [List.length_take, hlen]
    omega

/-- Witness of C4: a ten-byte field with terminators at bytes 5 and 7 yields the five bytes
before the first one. -/
theorem read_string_first_terminator_witness :
    Stream.read_string MemoryStream ⟨[72, 101, 108, 108, 111, 0, 88, 0, 89, 90], 0⟩ 10
      = .ok ([72, 101, 108, 108, 111], ⟨[72, 101, 108, 108, 111, 0, 88, 0, 89, 90], 10⟩) :=
  (read_string_first_terminator ⟨[72, 101, 108, 108, 111, 0, 88, 0, 89, 90], 0⟩ 10 5
    (by decide) (by decide) (by decide) (by decide) (by decide)).1

/-- Claim C5. When a field of `lenHint` bytes (`lenHint = 0` included) has no terminator
before its final byte, `read<std::string>(lenHint)` returns the whole field, of length
`lenHint`; a terminator in the last byte stays in the string. -/
theorem read_string_whole_field (s : MemoryState) (lenHint : Nat)
    (hn : s.bytes.length ≤ PTRDIFF_MAX) (h : s.pos + lenHint ≤ s.bytes.length)
    (hno : ∀ j, j < lenHint - 1 → (s.field lenHint)[j]? ≠ some 0) :
    Stream.read_string MemoryStream s lenHint
        = .ok (s.field lenHint, { s with pos := s.pos + lenHint })
      ∧ (s.field lenHint).length = lenHint := by
  have hlen := s.length_field lenHint h
  refine ⟨?_, hlen⟩
  rw [MemoryStream_read_string_ok s lenHint hn h, if_neg]
  rcases find_no_early_terminator 0 (s.field lenHint) (by rw [hlen]; exact hno) with h1 | h1
  · simp [h1]
  · rw [hlen] at h1
    simp only [npos, PTRDIFF_MAX, SIZE_MAX] at *
    omega

/-- Witness of C5: a four-byte field whose only terminator is its last byte is returned
whole. -/
theorem read_string_whole_field_witness :
    Stream.read_string MemoryStream ⟨[65, 66, 67, 0, 9], 0⟩ 4
      = .ok ([65, 66, 67, 0], ⟨[65, 66, 67, 0, 9], 4⟩) :=
  (read_string_whole_field ⟨[65, 66, 67, 0, 9], 0⟩ 4 (by decide) (by decide) (by decide)).1

/-! ## Object representation of the primitive types -/

theorem fromBytesLE_toBytesLE (k u : Nat) : fromBytesLE (toBytesLE k u) = u % 256 ^ k := by
  induction k generalizing u with
  | zero => simp [toBytesLE, fromBytesLE, Nat.mod_one]
  | succ k ih =>
    simp only [toBytesLE, fromBytesLE, ih]
    rw [pow_succ, Nat.mul_comm (256 ^ k) 256, Nat.mod_mul]

theorem getElem?_toBytesLE (k u i : Nat) (hi : i < k) :
    (toBytesLE k u)[i]? = some (u / 256 ^ i % 256) := by
  induction k generalizing u i with
  | zero => omega
  | succ k ih =>
    cases i with
    | zero => simp [toBytesLE]
    | succ i =>
      simp only [toBytesLE, List.getElem?_cons_succ]
      rw [ih (u / 256) i (by omega), Nat.div_div_eq_div_mul, pow_succ, Nat.mul_comm]

theorem objectValue_objectBytes (e : Endian) (T : PrimType) (x : Int) (hx : T.InRange x) :
    objectValue e T (objectBytes e T x) = x := by
  unfold PrimType.InRange at hx
  cases e <;> cases T <;>
    simp only [objectValue, objectBytes, List.reverse_reverse, fromBytesLE_toBytesLE,
      PrimType.sizeof, PrimType.isSigned] at hx ⊢ <;>
    norm_num at hx ⊢ <;> omega

theorem fromBytesLE_eq_sum (bs : List Byte) :
    fromBytesLE bs = ∑ i in Finset.range bs.length, bs.getD i 0 * 256 ^ i := by
  induction bs with
  | nil => simp [fromBytesLE]
  | cons b bs ih =>
    rw [fromBytesLE, ih, List.length_cons, Finset.sum_range_succ', Finset.mul_sum]
    simp only [List.getD_cons_succ, List.getD_cons_zero, pow_zero, mul_one, pow_succ]
    rw [Nat.add_comm]
    congr 1
    apply Finset.sum_congr rfl
    intro i _
    ring

theorem fromBytesLE_lt (bs : List Byte) (h : ∀ b ∈ bs, b < 256) :
    fromBytesLE bs < 256 ^ bs.length := by
  induction bs with
  | nil => simp [fromBytesLE]
  | cons b bs ih =>
    have hb : @LT.lt Nat _ b 256 := h b (List.mem_cons_self _ _)
    have hr := ih (fun c hc => h c (List.mem_cons_of_mem _ hc))
    rw [fromBytesLE, List.length_cons, pow_succ]
    omega

theorem objectValue_little_spec (T : PrimType) (bs : List Byte)
    (h : fromBytesLE bs < 256 ^ T.sizeof) :
    T.InRange (objectValue .little T bs)
      ∧ objectValue .little T bs % 2 ^ (8 * T.sizeof) = (fromBytesLE bs : Int) := by
  unfold PrimType.InRange
  simp only [objectValue]
  generalize fromBytesLE bs = u at h ⊢
  cases T <;>
    simp only [PrimType.sizeof, PrimType.isSigned] at h ⊢ <;>
    norm_num at h ⊢ <;> omega

/-! ## Writing and reading on the in-memory stream -/

theorem two_PTRDIFF_MAX_lt : 2 * PTRDIFF_MAX < SIZE_MAX := by
  decide

theorem length_overwrite (bytes : List Byte) (p : Nat) (data : List Byte)
    (hp : p ≤ bytes.length) :
    (overwrite bytes p data).length = max bytes.length (p + data.length) := by
  simp only [overwrite, List.length_append, List.length_take, List.length_drop]
  omega

theorem take_drop_overwrite (bytes : List Byte) (p : Nat) (data : List Byte)
    (hp : p ≤ bytes.length) :
    ((overwrite bytes p data).drop p).take data.length = data := by
  have h1 : (bytes.take p).length = p := by
    rw [List.length_take]; omega
  unfold overwrite
  rw [List.append_assoc, List.drop_left' h1, List.take_left' rfl]

theorem getElem?_overwrite (bytes : List Byte) (p : Nat) (data : List Byte)
    (hp : p ≤ bytes.length) (i : Nat) (hi : i < data.length) :
    (overwrite bytes p data)[p + i]? = data[i]? := by
  have h1 : (bytes.take p).length = p := by
    rw [List.length_take]; omega
  unfold overwrite
  rw [List.append_assoc, List.getElem?_append_right (by omega), h1, Nat.add_sub_cancel_left,
    List.getElem?_append_left hi]

theorem MemoryStream_write_prim (e : Endian) (T : PrimType) (s : MemoryState) (x : Int) :
    Stream.write_prim e T MemoryStream s x
      = .ok ⟨overwrite s.bytes s.pos (objectBytes e T x), s.pos + T.sizeof⟩ := by
  have hb := PrimType.bytes_eq_sizeof T
  have hl := length_objectBytes e T x
  have ht : (objectBytes e T x).take T.sizeof = objectBytes e T x :=
    List.take_of_length_le (by omega)
  simp only [Stream.write_prim, Stream.write, MemoryStream, hb, ht, hl, ne_eq,
    not_true_eq_false, if_false]

theorem MemoryStream_read_prim (e : Endian) (T : PrimType) (s : MemoryState)
    (hn : s.bytes.length ≤ SIZE_MAX) (h : s.pos + T.sizeof ≤ s.bytes.length) :
    Stream.read_prim e T MemoryStream s
      = .ok (objectValue e T (s.field T.sizeof), { s with pos := s.pos + T.sizeof }) := by
  have hb := PrimType.bytes_eq_sizeof T
  have hlen := s.length_field T.sizeof h
  have hf : fill (List.replicate T.sizeof 0) (s.field T.sizeof) = s.field T.sizeof :=
    fill_of_length_eq _ _ (by simp [hlen])
  simp only [Stream.read_prim, hb, MemoryStream_read_ok s T.sizeof hn h, ne_eq,
    not_true_eq_false, if_false, hf]

theorem PrimType.sizeof_le (T : PrimType) : T.sizeof ≤ 8 := by
  cases T <;> decide

theorem MemoryState.getD_field (s : MemoryState) (L i : Nat) (hi : i < L) :
    (s.field L).getD i 0 = s.bytes.getD (s.pos + i) 0 := by
  simp only [List.getD_eq_getElem?_getD, s.getElem?_field L i hi]

theorem length_vectorBytes (e : Endian) (T : PrimType) (v : List Int) :
    (vectorBytes e T v).length = v.length * T.sizeof := by
  induction v with
  | nil => simp [vectorBytes]
  | cons x xs ih =>
    simp only [vectorBytes, List.map_cons, List.flatten_cons, List.length_append,
      List.length_cons, length_objectBytes] at ih ⊢
    rw [ih]
    ring

theorem overwrite_nil (bytes : List Byte) (p : Nat) : overwrite bytes p [] = bytes := by
  simp [overwrite]

theorem overwrite_at_end (bytes data : List Byte) :
    overwrite bytes bytes.length data = bytes ++ data := by
  simp [overwrite]

theorem overwrite_overwrite (bytes : List Byte) (p : Nat) (d1 d2 : List Byte)
    (hp : p ≤ bytes.length) :
    overwrite (overwrite bytes p d1) (p + d1.length) d2 = overwrite bytes p (d1 ++ d2) := by
  have h1 : (bytes.take p).length = p := by
    rw [List.length_take]; omega
  have h2 : (bytes.take p ++ d1).length = p + d1.length := by
    rw [List.length_append, h1]
  have key : (bytes.take p ++ d1 ++ bytes.drop (p + d1.length)).drop (p + d1.length + d2.length)
      = bytes.drop (p + (d1 ++ d2).length) := by
    have h3 : p + d1.length + d2.length = (bytes.take p ++ d1).length + d2.length := by omega
    rw [h3, List.drop_append, List.drop_drop, List.length_append]
    congr 1
    omega
  unfold overwrite
  rw [List.take_left' h2, key]
  simp only [List.append_assoc]

theorem MemoryStream_write_vector (e : Endian) (T : PrimType) (s : MemoryState) (v : List Int)
    (name : String) :
    Stream._write_vector e T MemoryStream s v name
      = .ok ⟨overwrite s.bytes s.pos (vectorBytes e T v), s.pos + v.length * T.sizeof⟩ := by
  have hl := length_vectorBytes e T v
  have ht : (vectorBytes e T v).take (v.length * T.sizeof) = vectorBytes e T v :=
    List.take_of_length_le (by omega)
  simp only [Stream._write_vector, Stream.write, MemoryStream, ht, hl, ne_eq,
    not_true_eq_false, if_false]

theorem MemoryStream_write_elements (e : Endian) (T : PrimType) (s : MemoryState)
    (v : List Int) (hp : s.pos ≤ s.bytes.length) :
    Stream.write_elements e T MemoryStream s v
      = .ok ⟨overwrite s.bytes s.pos (vectorBytes e T v), s.pos + v.length * T.sizeof⟩ := by
  induction v generalizing s with
  | nil =>
    simp [Stream.write_elements, vectorBytes, overwrite_nil]
  | cons x xs ih =>
    have hl := length_objectBytes e T x
    have hlen := length_overwrite s.bytes s.pos (objectBytes e T x) hp
    simp only [Stream.write_elements, MemoryStream_write_prim]
    rw [ih ⟨overwrite s.bytes s.pos (objectBytes e T x), s.pos + T.sizeof⟩
      (by simp only [hlen, hl]; omega)]
    simp only
    have := overwrite_overwrite s.bytes s.pos (objectBytes e T x) (vectorBytes e T xs) hp
    rw [hl] at this
    rw [this]
    simp only [vectorBytes, List.map_cons, List.flatten_cons, List.length_cons]
    congr 2
    ring

theorem vectorOfBytes_vectorBytes (e : Endian) (T : PrimType) (v : List Int)
    (hv : ∀ x ∈ v, T.InRange x) :
    vectorOfBytes e T v.length (vectorBytes e T v) = v := by
  induction v with
  | nil => simp [vectorOfBytes, chunks]
  | cons x xs ih =>
    have hl := length_objectBytes e T x
    have hx := objectValue_objectBytes e T x (hv x (List.mem_cons_self _ _))
    have hr := ih (fun y hy => hv y (List.mem_cons_of_mem _ hy))
    simp only [vectorOfBytes, vectorBytes, List.map_cons, List.flatten_cons, List.length_cons,
      chunks, List.take_left' hl, List.drop_left' hl, hx] at hr ⊢
    rw [hr]

theorem MemoryStream_read_vector (e : Endian) (T : PrimType) (s : MemoryState) (n : Nat)
    (hn : s.bytes.length ≤ SIZE_MAX) (ha : n * T.sizeof ≤ PTRDIFF_MAX)
    (h : s.pos + n * T.sizeof ≤ s.bytes.length) :
    Stream._read_vector e T MemoryStream s n
      = .ok (vectorOfBytes e T n (s.field (n * T.sizeof)),
          { s with pos := s.pos + n * T.sizeof }) := by
  have hlen := s.length_field (n * T.sizeof) h
  have hm : n * T.sizeof % (SIZE_MAX + 1) = n * T.sizeof := by
    simp only [PTRDIFF_MAX, SIZE_MAX] at *
    omega
  have hf : fill (List.replicate (n * T.sizeof) 0) (s.field (n * T.sizeof))
      = s.field (n * T.sizeof) := fill_of_length_eq _ _ (by simp [hlen])
  simp only [Stream._read_vector, allocate_ok _ _ ha, hm,
    MemoryStream_read_ok s (n * T.sizeof) hn h, ne_eq, not_true_eq_false, if_false, hf]

theorem MemoryStream_read_vector_eos (e : Endian) (T : PrimType) (s : MemoryState) (n : Nat)
    (hn : s.bytes.length ≤ PTRDIFF_MAX) (hp : s.pos ≤ s.bytes.length)
    (ha : n * T.sizeof ≤ PTRDIFF_MAX) (h : s.bytes.length < s.pos + n * T.sizeof) :
    Stream._read_vector e T MemoryStream s n = .error (.StreamError "End of stream") := by
  have hm : n * T.sizeof % (SIZE_MAX + 1) = n * T.sizeof := by
    simp only [PTRDIFF_MAX, SIZE_MAX] at *
    omega
  have hr : Stream.read MemoryStream s (n * T.sizeof) = .error (.StreamError "End of stream") := by
    apply Stream.read_end_of_stream
    · show s.pos + n * T.sizeof ≤ SIZE_MAX
      simp only [PTRDIFF_MAX, SIZE_MAX] at *
      omega
    · exact h
  simp only [Stream._read_vector, allocate_ok _ _ ha, hm, hr]

theorem MemoryStream_read_elements (e : Endian) (T : PrimType) (n : Nat) (s : MemoryState)
    (hn : s.bytes.length ≤ PTRDIFF_MAX) (hp : s.pos ≤ s.bytes.length)
    (ha : n * T.sizeof ≤ PTRDIFF_MAX) :
    Stream.read_elements e T MemoryStream n s
      = if s.pos + n * T.sizeof ≤ s.bytes.length then
          .ok (vectorOfBytes e T n (s.field (n * T.sizeof)),
            { s with pos := s.pos + n * T.sizeof })
        else .error (.StreamError "End of stream") := by
  induction n generalizing s with
  | zero =>
    simp [Stream.read_elements, vectorOfBytes, chunks, hp]
  | succ n ih =>
    have hsn : s.bytes.length ≤ SIZE_MAX := le_trans hn PTRDIFF_MAX_le_SIZE_MAX
    have hmul : (n + 1) * T.sizeof = T.sizeof + n * T.sizeof := by ring
    by_cases h1 : s.pos + T.sizeof ≤ s.bytes.length
    · have hrec := ih ⟨s.bytes, s.pos + T.sizeof⟩ hn h1 (by rw [hmul] at ha; omega)
      simp only [Stream.read_elements, MemoryStream_read_prim e T s hsn h1, hrec]
      by_cases h2 : s.pos + (n + 1) * T.sizeof ≤ s.bytes.length
      · rw [if_pos (by rw [hmul] at h2; omega), if_pos h2]
        simp only [vectorOfBytes, chunks, MemoryState.field, List.map_cons, hmul,
          List.take_take, List.drop_take, List.drop_drop, Nat.add_sub_cancel_left]
        have hmin : min T.sizeof (T.sizeof + n * T.sizeof) = T.sizeof := by omega
        rw [hmin, Nat.add_assoc]
      · rw [if_neg (by rw [hmul] at h2; omega), if_neg h2]
    · have hr : Stream.read_prim e T MemoryStream s = .error (.StreamError "End of stream") := by
        have : Stream.read MemoryStream s T.bytes = .error (.StreamError "End of stream") := by
          apply Stream.read_end_of_stream
          · show s.pos + T.bytes ≤ SIZE_MAX
            have := T.bytes_eq_sizeof
            simp only [PTRDIFF_MAX, SIZE_MAX] at *
            omega
          · show s.bytes.length < s.pos + T.bytes
            rw [T.bytes_eq_sizeof]
            omega
        simp only [Stream.read_prim, this]
      simp only [Stream.read_elements, hr]
      rw [if_neg (by rw [hmul]; omega)]

/-- The bulk read of a vector that lies within the stored bytes, on a machine that constructs
the vector. -/
theorem MemoryStream_read_vector_on (A : Allocator) (e : Endian) (T : PrimType)
    (s : MemoryState) (n : Nat) (hA : A n T.sizeof = .ok ())
    (hn : s.bytes.length ≤ SIZE_MAX) (h : s.pos + n * T.sizeof ≤ s.bytes.length) :
    Stream._read_vector_on A e T MemoryStream s n
      = .ok (vectorOfBytes e T n (s.field (n * T.sizeof)),
          { s with pos := s.pos + n * T.sizeof }) := by
  have hlen := s.length_field (n * T.sizeof) h
  have hm : n * T.sizeof % (SIZE_MAX + 1) = n * T.sizeof := Nat.mod_eq_of_lt (by omega)
  have hf : fill (List.replicate (n * T.sizeof) 0) (s.field (n * T.sizeof))
      = s.field (n * T.sizeof) := fill_of_length_eq _ _ (by simp [hlen])
  simp only [Stream._read_vector_on, hA, hm,
    MemoryStream_read_ok s (n * T.sizeof) hn h, ne_eq, not_true_eq_false, if_false, hf]

/-- The bulk read of a vector that reaches beyond the stored bytes, on a machine that
constructs the vector. -/
theorem MemoryStream_read_vector_on_eos (A : Allocator) (e : Endian) (T : PrimType)
    (s : MemoryState) (n : Nat) (hA : A n T.sizeof = .ok ())
    (hn : s.bytes.length ≤ PTRDIFF_MAX) (hp : s.pos ≤ s.bytes.length)
    (ha : n * T.sizeof ≤ PTRDIFF_MAX) (h : s.bytes.length < s.pos + n * T.sizeof) :
    Stream._read_vector_on A e T MemoryStream s n = .error (.StreamError "End of stream") := by
  have h2 := two_PTRDIFF_MAX_lt
  have hm : n * T.sizeof % (SIZE_MAX + 1) = n * T.sizeof := Nat.mod_eq_of_lt (by omega)
  have hr : Stream.read MemoryStream s (n * T.sizeof) = .error (.StreamError "End of stream") := by
    apply Stream.read_end_of_stream
    · show s.pos + n * T.sizeof ≤ SIZE_MAX
      omega
    · exact h
  simp only [Stream._read_vector_on, hA, hm, hr]

/-- The specialisation `read<std::string>` on a field that lies within the stored bytes, on a
machine that constructs the string. -/
theorem MemoryStream_read_string_on_ok (A : Allocator) (s : MemoryState) (lenHint : Nat)
    (hA : A lenHint 1 = .ok ())
    (hn : s.bytes.length ≤ SIZE_MAX) (h : s.pos + lenHint ≤ s.bytes.length) :
    Stream.read_string_on A MemoryStream s lenHint
      = if find (s.field lenHint) 0 ≠ npos
            ∧ find (s.field lenHint) 0 ≠ (lenHint + SIZE_MAX) % (SIZE_MAX + 1) then
          .ok ((s.field lenHint).take (find (s.field lenHint) 0),
            { s with pos := s.pos + lenHint })
        else .ok (s.field lenHint, { s with pos := s.pos + lenHint }) := by
  have hlen := s.length_field lenHint h
  have hm : lenHint * 1 % (SIZE_MAX + 1) = lenHint := by
    rw [Nat.mul_one, Nat.mod_eq_of_lt (by omega)]
  have hf : fill (List.replicate lenHint 48) (s.field lenHint) = s.field lenHint :=
    fill_of_length_eq _ _ (by simp [hlen])
  simp only [Stream.read_string_on, hA, hm, MemoryStream_read_ok s lenHint hn h, ne_eq,
    not_true_eq_false, if_false, hf, hlen]

/-! ## Fixed-width integers -/

/-- Claim C6. On the in-memory stream, for every primitive type `T` (the fixed-width
integers among them), every value `x` of `T` and either byte order of the host: `write(x)` at
position `p` succeeds and advances the position by `sizeof(T)`, `seek(p)` returns to `p`, and
`read<T>()` then returns `x` and advances the position by `sizeof(T)`. -/
theorem integer_write_seek_read (e : Endian) (T : PrimType) (s : MemoryState) (x : Int)
    (hs : s.Valid) (hx : T.InRange x) :
    ∃ s1 s2 s3, Stream.write_prim e T MemoryStream s x = .ok s1
      ∧ s1.pos = s.pos + T.sizeof
      ∧ MemoryStream.seek s1 s.pos = .ok s2
      ∧ s2.pos = s.pos
      ∧ Stream.read_prim e T MemoryStream s2 = .ok (x, s3)
      ∧ s3.pos = s2.pos + T.sizeof := by
  obtain ⟨hp, hn⟩ := hs
  have hl := length_objectBytes e T x
  have hlen := length_overwrite s.bytes s.pos (objectBytes e T x) hp
  have hw := T.sizeof_le
  rw [hl] at hlen
  refine ⟨⟨overwrite s.bytes s.pos (objectBytes e T x), s.pos + T.sizeof⟩,
    ⟨overwrite s.bytes s.pos (objectBytes e T x), s.pos⟩,
    ⟨overwrite s.bytes s.pos (objectBytes e T x), s.pos + T.sizeof⟩,
    MemoryStream_write_prim e T s x, rfl, ?_, rfl, ?_, rfl⟩
  · simp only [MemoryStream]
    rw [if_neg (by rw [hlen]; omega)]
  · rw [MemoryStream_read_prim]
    · have hfield : MemoryState.field ⟨overwrite s.bytes s.pos (objectBytes e T x), s.pos⟩
          T.sizeof = objectBytes e T x := by
        have := take_drop_overwrite s.bytes s.pos (objectBytes e T x) hp
        rw [hl] at this
        exact this
      rw [hfield, objectValue_objectBytes e T x hx]
    · simp only [hlen, PTRDIFF_MAX, SIZE_MAX] at *
      omega
    · simp only [hlen]
      omega

/-- Witness of C6: the value -2 of `int16_t` written at position 1 and read back. -/
theorem integer_write_seek_read_witness :
    ∃ s1 s2 s3, Stream.write_prim .little .int16_t MemoryStream ⟨[9, 9, 9], 1⟩ (-2) = .ok s1
      ∧ s1.pos = 1 + 2
      ∧ MemoryStream.seek s1 1 = .ok s2
      ∧ s2.pos = 1
      ∧ Stream.read_prim .little .int16_t MemoryStream s2 = .ok (-2, s3)
      ∧ s3.pos = s2.pos + 2 :=
  integer_write_seek_read .little .int16_t ⟨[9, 9, 9], 1⟩ (-2) (by decide) (by decide)

/-- Claim C7. On a little-endian host, `write(x)` stores at offset `p + i` the byte
`(x mod 2^w / 256^i) mod 256` for every `i` below `sizeof(T)`, where `w = 8 * sizeof(T)`; and
`read<T>()` of the stored bytes `b_0 .. b_(k-1)` returns the value of `T` that is congruent to
the sum of the `b_i * 256^i` modulo `2^w`, that sum interpreted in `T`. -/
theorem integer_little_endian (T : PrimType) (s : MemoryState) (x : Int) (hs : s.Valid) :
    (∃ s1, Stream.write_prim .little T MemoryStream s x = .ok s1
        ∧ ∀ i, i < T.sizeof →
            s1.bytes[s.pos + i]? = some ((x % 2 ^ (8 * T.sizeof)).toNat / 256 ^ i % 256))
    ∧ (s.pos + T.sizeof ≤ s.bytes.length → (∀ b ∈ s.bytes, b < 256) →
        ∃ v s1, Stream.read_prim .little T MemoryStream s = .ok (v, s1)
          ∧ T.InRange v
          ∧ v % 2 ^ (8 * T.sizeof)
              = ((∑ i in Finset.range T.sizeof, s.bytes.getD (s.pos + i) 0 * 256 ^ i : Nat)
                  : Int)) := by
  obtain ⟨hp, hn⟩ := hs
  constructor
  · refine ⟨_, MemoryStream_write_prim .little T s x, fun i hi => ?_⟩
    have hl := length_objectBytes .little T x
    rw [getElem?_overwrite _ _ _ hp i (by omega)]
    exact getElem?_toBytesLE _ _ i hi
  · intro h hb
    have hlen := s.length_field T.sizeof h
    have hsum : fromBytesLE (s.field T.sizeof)
        = ∑ i in Finset.range T.sizeof, s.bytes.getD (s.pos + i) 0 * 256 ^ i := by
      rw [fromBytesLE_eq_sum, hlen]
      exact Finset.sum_congr rfl (fun i hi => by
        rw [s.getD_field T.sizeof i (Finset.mem_range.1 hi)])
    have hlt : fromBytesLE (s.field T.sizeof) < 256 ^ T.sizeof := by
      have := fromBytesLE_lt (s.field T.sizeof) (fun b hb2 =>
        hb b (List.mem_of_mem_drop (List.mem_of_mem_take hb2)))
      rwa [hlen] at this
    have hspec := objectValue_little_spec T (s.field T.sizeof) hlt
    refine ⟨_, _, MemoryStream_read_prim .little T s (le_trans hn PTRDIFF_MAX_le_SIZE_MAX) h,
      hspec.1, ?_⟩
    rw [hspec.2, hsum]

/-- Witness of C7: the bytes 254, 255 read as an `int16_t`. -/
theorem integer_little_endian_witness :
    ∃ v s1, Stream.read_prim .little .int16_t MemoryStream ⟨[254, 255], 0⟩ = .ok (v, s1)
      ∧ PrimType.int16_t.InRange v
      ∧ v % 2 ^ (8 * PrimType.int16_t.sizeof)
          = ((∑ i in Finset.range PrimType.int16_t.sizeof,
                (([254, 255] : List Byte).getD (0 + i) 0) * 256 ^ i : Nat) : Int) :=
  (integer_little_endian .int16_t ⟨[254, 255], 0⟩ 0 (by decide)).2 (by decide) (by decide)

/-! ## Homogeneous sequences -/

/-- Claim C8. Writing a vector `v` of primitives stores, at the cursor, exactly the
concatenation of the object representations of `v[0], v[1], ...` in index order, which has
`|v| * sizeof(T)` bytes, and advances the cursor by that number; at the end of the stream
these bytes are appended with nothing before or after them; the result is that of writing
the elements one by one; and writing the empty vector leaves the stream as it is. -/
theorem write_vector_bytes (e : Endian) (T : PrimType) (s : MemoryState) (v : List Int)
    (name : String) (hs : s.Valid) :
    Stream._write_vector e T MemoryStream s v name
        = .ok ⟨overwrite s.bytes s.pos (v.map (objectBytes e T)).flatten,
            s.pos + v.length * T.sizeof⟩
      ∧ ((v.map (objectBytes e T)).flatten).length = v.length * T.sizeof
      ∧ (s.pos = s.bytes.length →
          overwrite s.bytes s.pos (v.map (objectBytes e T)).flatten
            = s.bytes ++ (v.map (objectBytes e T)).flatten)
      ∧ Stream._write_vector e T MemoryStream s v name
          = Stream.write_elements e T MemoryStream s v
      ∧ Stream._write_vector e T MemoryStream s [] name = .ok s := by
  refine ⟨MemoryStream_write_vector e T s v name, length_vectorBytes e T v, ?_, ?_, ?_⟩
  · intro h
    rw [h, overwrite_at_end]
  · rw [MemoryStream_write_vector, MemoryStream_write_elements e T s v hs.1]
  · rw [MemoryStream_write_vector]
    simp [vectorBytes, overwrite_nil]

/-- Witness of C8: two `uint16_t` values written after one stored byte. -/
theorem write_vector_bytes_witness :
    Stream._write_vector .little .uint16_t MemoryStream ⟨[7], 1⟩ [1, 515] ""
      = .ok ⟨[7, 1, 0, 3, 2], 5⟩ :=
  (write_vector_bytes .little .uint16_t ⟨[7], 1⟩ [1, 515] "" (by decide)).1

/-- Claim C9. On the in-memory stream, for every vector `v` of values of `T`: `write(v)`
at position `p`, then `seek(p)`, then `read<std::vector<T>>(|v|)` returns `v` and leaves the
position at `p + |v| * sizeof(T)`. -/
theorem vector_write_seek_read (e : Endian) (T : PrimType) (s : MemoryState) (v : List Int)
    (name : String) (hs : s.Valid) (hv : ∀ x ∈ v, T.InRange x)
    (hsz : v.length * T.sizeof ≤ PTRDIFF_MAX) :
    ∃ s1 s2 s3, Stream._write_vector e T MemoryStream s v name = .ok s1
      ∧ MemoryStream.seek s1 s.pos = .ok s2
      ∧ s2.pos = s.pos
      ∧ Stream._read_vector e T MemoryStream s2 v.length = .ok (v, s3)
      ∧ s3.pos = s.pos + v.length * T.sizeof := by
  obtain ⟨hp, hn⟩ := hs
  have hl := length_vectorBytes e T v
  have hlen := length_overwrite s.bytes s.pos (vectorBytes e T v) hp
  rw [hl] at hlen
  refine ⟨⟨overwrite s.bytes s.pos (vectorBytes e T v), s.pos + v.length * T.sizeof⟩,
    ⟨overwrite s.bytes s.pos (vectorBytes e T v), s.pos⟩,
    ⟨overwrite s.bytes s.pos (vectorBytes e T v), s.pos + v.length * T.sizeof⟩,
    MemoryStream_write_vector e T s v name, ?_, rfl, ?_, rfl⟩
  · simp only [MemoryStream]
    rw [if_neg (by rw [hlen]; omega)]
  · rw [MemoryStream_read_vector _ _ _ _ _ hsz]
    · have hfield : MemoryState.field ⟨overwrite s.bytes s.pos (vectorBytes e T v), s.pos⟩
          (v.length * T.sizeof) = vectorBytes e T v := by
        have := take_drop_overwrite s.bytes s.pos (vectorBytes e T v) hp
        rw [hl] at this
        exact this
      rw [hfield, vectorOfBytes_vectorBytes e T v hv]
    · show s.pos + v.length * T.sizeof ≤ (overwrite s.bytes s.pos (vectorBytes e T v)).length
      rw [hlen]
      generalize v.length * T.sizeof = m at *
      omega
    · have h2 := two_PTRDIFF_MAX_lt
      show (overwrite s.bytes s.pos (vectorBytes e T v)).length ≤ SIZE_MAX
      rw [hlen]
      generalize v.length * T.sizeof = m at *
      omega

/-- Witness of C9: two `int16_t` values written at position 1 and read back. -/
theorem vector_write_seek_read_witness :
    ∃ s1 s2 s3, Stream._write_vector .little .int16_t MemoryStream ⟨[9, 9, 9], 1⟩ [-2, 258] ""
        = .ok s1
      ∧ MemoryStream.seek s1 1 = .ok s2
      ∧ s2.pos = 1
      ∧ Stream._read_vector .little .int16_t MemoryStream s2 2 = .ok ([-2, 258], s3)
      ∧ s3.pos = 1 + 2 * 2 :=
  vector_write_seek_read .little .int16_t ⟨[9, 9, 9], 1⟩ [-2, 258] "" (by decide) (by decide)
    (by decide)

theorem SameOutcome_ok {α : Type} (x : α) : SameOutcome (.ok x) (.ok x) := by
  simp [SameOutcome]

/-- Claim C10, amended. On the in-memory stream, for every machine, every primitive type
`T`, every state with the cursor within the stored bytes and every count `n`: when the vector
of `n` elements is constructed, the bulk read `read<std::vector<T>>(n)` and `n` successive
reads `read<T>()` have the same outcome, both succeed with the same elements and the same
final state, or both fail with a `StreamError` (the two results are in fact equal); when the
construction of the vector throws, the bulk read fails with that exception, which is not a
`StreamError`. -/
theorem read_vector_bulk_equiv_elements (A : Allocator) (e : Endian) (T : PrimType)
    (s : MemoryState) (n : Nat) (hs : s.Valid) (hA : A.Lawful) :
    (A n T.sizeof = .ok () →
        SameOutcome (Stream._read_vector_on A e T MemoryStream s n)
            (Stream.read_elements e T MemoryStream n s)
          ∧ Stream._read_vector_on A e T MemoryStream s n
            = Stream.read_elements e T MemoryStream n s)
    ∧ (∀ x, A n T.sizeof = .error x →
        Stream._read_vector_on A e T MemoryStream s n = .error x
          ∧ ∀ msg, x ≠ .StreamError msg) := by
  obtain ⟨hp, hn⟩ := hs
  refine ⟨?_, ?_⟩
  · intro hok
    have ha := hA.1 n T.sizeof hok
    rw [MemoryStream_read_elements e T n s hn hp ha]
    by_cases h : s.pos + n * T.sizeof ≤ s.bytes.length
    · rw [if_pos h,
        MemoryStream_read_vector_on A e T s n hok (le_trans hn PTRDIFF_MAX_le_SIZE_MAX) h]
      exact ⟨SameOutcome_ok _, rfl⟩
    · rw [if_neg h, MemoryStream_read_vector_on_eos A e T s n hok hn hp ha (by omega)]
      exact ⟨trivial, rfl⟩
  · intro x hx
    exact ⟨Stream._read_vector_on_error A e T MemoryStream s n x hx, hA.2 n T.sizeof x hx⟩

/-- Witness of C10: on a machine whose memory serves `2^32` bytes and on five stored bytes,
two `uint16_t` elements are read by both ways, three elements fail by both ways, and the bulk
read of `2^40` elements fails with `std::bad_alloc`. -/
theorem read_vector_bulk_equiv_elements_witness :
    SameOutcome
        (Stream._read_vector_on (Allocator.limited (2 ^ 63 - 1) (2 ^ 32)) .little .uint16_t
          MemoryStream ⟨[1, 0, 2, 0, 3], 0⟩ 2)
        (Stream.read_elements .little .uint16_t MemoryStream 2 ⟨[1, 0, 2, 0, 3], 0⟩)
      ∧ SameOutcome
        (Stream._read_vector_on (Allocator.limited (2 ^ 63 - 1) (2 ^ 32)) .little .uint16_t
          MemoryStream ⟨[1, 0, 2, 0, 3], 0⟩ 3)
        (Stream.read_elements .little .uint16_t MemoryStream 3 ⟨[1, 0, 2, 0, 3], 0⟩)
      ∧ Stream._read_vector_on (Allocator.limited (2 ^ 63 - 1) (2 ^ 32)) .little .uint16_t
          MemoryStream ⟨[1, 0, 2, 0, 3], 0⟩ (2 ^ 40) = .error .bad_alloc :=
  ⟨((read_vector_bulk_equiv_elements (Allocator.limited (2 ^ 63 - 1) (2 ^ 32)) .little
      .uint16_t ⟨[1, 0, 2, 0, 3], 0⟩ 2 (by decide)
      (Allocator.limited_lawful _ _ (by decide))).1 (by rfl)).1,
   ((read_vector_bulk_equiv_elements (Allocator.limited (2 ^ 63 - 1) (2 ^ 32)) .little
      .uint16_t ⟨[1, 0, 2, 0, 3], 0⟩ 3 (by decide)
      (Allocator.limited_lawful _ _ (by decide))).1 (by rfl)).1,
   ((read_vector_bulk_equiv_elements (Allocator.limited (2 ^ 63 - 1) (2 ^ 32)) .little
      .uint16_t ⟨[1, 0, 2, 0, 3], 0⟩ (2 ^ 40) (by decide)
      (Allocator.limited_lawful _ _ (by decide))).2 .bad_alloc (by rfl)).1⟩

/-- Claim C10 as stated fails on the empty stream. For the count `2^62` of `int32_t`
elements, `2^64` bytes, which no vector of any machine can hold, the bulk read fails in the
construction of the vector with `std::length_error`, not with a `StreamError`, whereas the
first of the successive reads fails with the end-of-stream `StreamError`. For the count `2^60`
on a machine whose memory serves `2^32` bytes the bulk read fails with `std::bad_alloc`, the
successive reads again with the end-of-stream `StreamError`. -/
theorem read_vector_bulk_length_error :
    Stream._read_vector .little .int32_t MemoryStream ⟨[], 0⟩ (2 ^ 62)
        = .error (.length_error "cannot create container larger than max_size()")
      ∧ Stream.read_elements .little .int32_t MemoryStream (2 ^ 62) ⟨[], 0⟩
        = .error (.StreamError "End of stream")
      ∧ ¬ SameOutcome (Stream._read_vector .little .int32_t MemoryStream ⟨[], 0⟩ (2 ^ 62))
          (Stream.read_elements .little .int32_t MemoryStream (2 ^ 62) ⟨[], 0⟩)
      ∧ Stream._read_vector_on (Allocator.limited (2 ^ 63 - 1) (2 ^ 32)) .little .int32_t
          MemoryStream ⟨[], 0⟩ (2 ^ 60) = .error .bad_alloc
      ∧ Stream.read_elements .little .int32_t MemoryStream (2 ^ 60) ⟨[], 0⟩
        = .error (.StreamError "End of stream")
      ∧ ¬ SameOutcome
          (Stream._read_vector_on (Allocator.limited (2 ^ 63 - 1) (2 ^ 32)) .little .int32_t
            MemoryStream ⟨[], 0⟩ (2 ^ 60))
          (Stream.read_elements .little .int32_t MemoryStream (2 ^ 60) ⟨[], 0⟩) := by
  have h1 : Stream._read_vector .little .int32_t MemoryStream ⟨[], 0⟩ (2 ^ 62)
      = .error (.length_error "cannot create container larger than max_size()") := by
    rfl
  have h2 : Stream.read_elements .little .int32_t MemoryStream (2 ^ 62) ⟨[], 0⟩
      = .error (.StreamError "End of stream") := by
    have h3 : (2 ^ 62 : Nat) = (2 ^ 62 - 1) + 1 := by norm_num
    rw [h3]
    rfl
  have h4 : Stream._read_vector_on (Allocator.limited (2 ^ 63 - 1) (2 ^ 32)) .little .int32_t
      MemoryStream ⟨[], 0⟩ (2 ^ 60) = .error .bad_alloc := by
    rfl
  have h5 : Stream.read_elements .little .int32_t MemoryStream (2 ^ 60) ⟨[], 0⟩
      = .error (.StreamError "End of stream") := by
    have h3 : (2 ^ 60 : Nat) = (2 ^ 60 - 1) + 1 := by norm_num
    rw [h3]
    rfl
  refine ⟨h1, h2, ?_, h4, h5, ?_⟩
  · rw [h1, h2]
    simp [SameOutcome]
  · rw [h4, h5]
    simp [SameOutcome]

/-! ## Further facts on the in-memory stream -/

theorem MemoryStream_write_ByteArray (m : MemoryState) (data : List Byte) :
    Stream.write_ByteArray MemoryStream m data
      = .ok ⟨overwrite m.bytes m.pos data, m.pos + data.length⟩ := by
  simp only [Stream.write_ByteArray, Stream.write, MemoryStream, ne_eq, not_true_eq_false,
    if_false]

theorem MemoryStream_write_pod (m : MemoryState) (pod : List Byte) :
    Stream._write_pod MemoryStream m pod
      = .ok ⟨overwrite m.bytes m.pos pod, m.pos + pod.length⟩ := by
  simp only [Stream._write_pod, MemoryStream, ne_eq, not_true_eq_false, if_false]

theorem MemoryStream_read_ByteArray (s : MemoryState) (L : Nat)
    (hn : s.bytes.length ≤ PTRDIFF_MAX) (h : s.pos + L ≤ s.bytes.length) :
    Stream.read_ByteArray MemoryStream s L = .ok (s.field L, { s with pos := s.pos + L }) := by
  have hlen := s.length_field L h
  have hs : s.bytes.length ≤ SIZE_MAX := le_trans hn PTRDIFF_MAX_le_SIZE_MAX
  have ha : allocate L 1 = .ok () := allocate_ok _ _ (by omega)
  simp only [Stream.read_ByteArray, ha, MemoryStream_read_ok s L hs h, ne_eq, not_true_eq_false,
    if_false]
  rw [fill_of_length_eq _ _ (by simp [hlen])]

theorem MemoryStream_readsome_inv (s s1 : MemoryState) (L n : Nat) (d : List Byte)
    (h : MemoryStream.readsome s L = .ok (n, d, s1)) (hs : s.pos ≤ s.bytes.length) :
    s1.pos ≤ s1.bytes.length ∧ s1.bytes = s.bytes := by
  simp only [MemoryStream, Except.ok.injEq, Prod.mk.injEq] at h
  obtain ⟨-, -, rfl⟩ := h
  simp only [List.length_take, List.length_drop, and_true]
  omega

theorem MemoryStream_read_inv (s s1 : MemoryState) (L n : Nat) (d : List Byte)
    (h : Stream.read MemoryStream s L = .ok (n, d, s1)) (hs : s.pos ≤ s.bytes.length) :
    s1.pos ≤ s1.bytes.length ∧ s1.bytes = s.bytes := by
  unfold Stream.read at h
  split at h
  · cases h
  · exact MemoryStream_readsome_inv s s1 L n d h hs

theorem MemoryStream_seek_inv (s s1 : MemoryState) (p : Nat)
    (h : MemoryStream.seek s p = .ok s1) : s1.pos ≤ s1.bytes.length ∧ s1.bytes = s.bytes := by
  simp only [MemoryStream] at h
  split at h
  · cases h
  · simp only [Except.ok.injEq] at h
    subst h
    simp only [and_true]
    omega

/-- Copy of a byte range between two in-memory streams. -/
theorem MemoryStream_write_Stream_range (s i : MemoryState) (b len : Nat)
    (hi : i.bytes.length ≤ PTRDIFF_MAX) (hb : b < i.bytes.length) (hlen : b + len ≤ SIZE_MAX) :
    Stream.write_Stream_range MemoryStream MemoryStream s i b len
      = .ok (⟨overwrite s.bytes s.pos ((i.bytes.drop b).take (min len (i.bytes.length - b))),
              s.pos + min len (i.bytes.length - b)⟩,
             ⟨i.bytes, b + min len (i.bytes.length - b)⟩) := by
  have hguard : ((!MemoryStream.canRead i) || decide (b ≥ MemoryStream.size i)) = false := by
    have : ¬ (i.bytes.length ≤ b) := by omega
    simp [MemoryStream, this]
  have hseek : MemoryStream.seek i b = .ok ⟨i.bytes, b⟩ := by
    simp only [MemoryStream]
    rw [if_neg (by omega)]
  have hend : (if (b + len) % (SIZE_MAX + 1) > MemoryStream.size i
      then MemoryStream.size i - b else len) = min len (i.bytes.length - b) := by
    rw [Nat.mod_eq_of_lt (by omega)]
    show (if b + len > i.bytes.length then i.bytes.length - b else len) = _
    split_ifs <;> omega
  have hread := MemoryStream_read_ByteArray ⟨i.bytes, b⟩ (min len (i.bytes.length - b)) hi
    (by show b + min len (i.bytes.length - b) ≤ i.bytes.length; omega)
  have hfl : (MemoryState.field ⟨i.bytes, b⟩ (min len (i.bytes.length - b))).length
      = min len (i.bytes.length - b) :=
    MemoryState.length_field ⟨i.bytes, b⟩ _
      (by show b + min len (i.bytes.length - b) ≤ i.bytes.length; omega)
  unfold Stream.write_Stream_range
  rw [hguard]
  simp only [Bool.false_eq_true, if_false, hseek, hend, hread, MemoryStream_write_ByteArray, hfl]
  rfl

/-- The two-argument copy on in-memory streams. -/
theorem MemoryStream_write_Stream_offset (s i : MemoryState) (offset : Nat)
    (hi : i.bytes.length ≤ PTRDIFF_MAX) (hb : offset < i.bytes.length) :
    Stream.write_Stream_offset MemoryStream MemoryStream s i offset
      = .ok (⟨overwrite s.bytes s.pos
                ((i.bytes.drop offset).take (min (i.bytes.length - 1) (i.bytes.length - offset))),
              s.pos + min (i.bytes.length - 1) (i.bytes.length - offset)⟩,
             ⟨i.bytes, offset + min (i.bytes.length - 1) (i.bytes.length - offset)⟩) := by
  have hP := PTRDIFF_MAX_le_SIZE_MAX
  have hm : (MemoryStream.size i + SIZE_MAX) % (SIZE_MAX + 1) = i.bytes.length - 1 := by
    show (i.bytes.length + SIZE_MAX) % (SIZE_MAX + 1) = _
    have h1 : i.bytes.length + SIZE_MAX = (i.bytes.length - 1) + (SIZE_MAX + 1) := by omega
    rw [h1, Nat.add_mod_right, Nat.mod_eq_of_lt (by omega)]
  unfold Stream.write_Stream_offset
  rw [hm]
  have h2 := two_PTRDIFF_MAX_lt
  exact MemoryStream_write_Stream_range s i offset (i.bytes.length - 1) hi hb (by omega)

theorem kDataChunkId_bytes : objectBytes .little .uint32_t (kDataChunkId : Int) = charCodes "data" := by
  rfl

theorem charCodes_data : charCodes "data" = [100, 97, 116, 97] := by
  rfl

theorem objectBytes_uint32_little (x : Nat) (hx : x < 2 ^ 32) :
    objectBytes .little .uint32_t (x : Int)
      = [x % 256, x / 256 % 256, x / 65536 % 256, x / 16777216 % 256] := by
  have h1 : ((x : Int) % 2 ^ (8 * 4)).toNat = x := by
    norm_num at hx ⊢
    omega
  simp only [objectBytes, PrimType.sizeof, toBytesLE, Nat.div_div_eq_div_mul, h1]

/-! ## Ownership wrappers -/

/-- Claim C11. For every value type `T`, with `readT` and `writeT` the read and write of
`T`: reading a `std::unique_ptr<T>` or a `std::shared_ptr<T>`, with or without a length hint,
has the outcome of reading `T` (the same final state of the stream, hence the same bytes
consumed and the same position, and the same failure) and gives a non-null pointer to the value
read; writing a non-null wrapper is the write of its pointee. For a primitive pointee the
template `write<T>` that the wrapper calls hands the same bytes to the transfer as the
overload `write(T)` and succeeds with the same state in the same cases. -/
theorem smart_pointer_delegates {σ α : Type} (readT : σ → Except Exn (α × σ))
    (readTn : σ → Nat → Except Exn (α × σ)) (writeT : σ → α → Except Exn σ) (s : σ)
    (lenHint : Nat) (v : α) (e : Endian) (T : PrimType) (B : Stream σ) (x : Int) :
    Stream._read_unique_ptr readT s = (readT s).map (fun r => (some r.1, r.2))
    ∧ Stream._read_unique_ptr_lenHint readTn s lenHint
        = (readTn s lenHint).map (fun r => (some r.1, r.2))
    ∧ Stream._read_shared_ptr readT s = (readT s).map (fun r => (some r.1, r.2))
    ∧ Stream._read_shared_ptr_lenHint readTn s lenHint
        = (readTn s lenHint).map (fun r => (some r.1, r.2))
    ∧ Stream._write_unique_ptr writeT s (some v) rfl = writeT s v
    ∧ Stream._write_shared_ptr writeT s (some v) rfl = writeT s v
    ∧ (Stream._write_unique_ptr (fun t y => Stream._write_pod B t (objectBytes e T y)) s
          (some x) rfl).toOption
        = (Stream.write_prim e T B s x).toOption := by
  refine ⟨?_, ?_, ?_, ?_, rfl, rfl, ?_⟩
  · unfold Stream._read_unique_ptr
    cases readT s <;> rfl
  · unfold Stream._read_unique_ptr_lenHint
    cases readTn s lenHint <;> rfl
  · unfold Stream._read_shared_ptr
    cases readT s <;> rfl
  · unfold Stream._read_shared_ptr_lenHint
    cases readTn s lenHint <;> rfl
  · have hb := PrimType.bytes_eq_sizeof T
    have hl := length_objectBytes e T x
    have ht : (objectBytes e T x).take T.sizeof = objectBytes e T x :=
      List.take_of_length_le (by omega)
    simp only [Stream._write_unique_ptr, Option.get_some, Stream._write_pod, Stream.write_prim,
      Stream.write, hb, ht, hl]
    cases B.writesome s (objectBytes e T x) with
    | error err => rfl
    | ok r =>
      obtain ⟨n, s1⟩ := r
      by_cases hn : n = T.sizeof <;> simp [hn, Except.toOption]

/-! ## Opaque byte buffers -/

/-- Claim C12. For every stream and every byte buffer `data`: when the underlying sink
reports a count other than `data.size()`, `write(const ByteArray&)` fails with a
`StreamError`; when it reports `data.size()`, the call returns the stream as the sink left
it. On the in-memory stream the call succeeds, the `data.size()` bytes stand in order at the
position the cursor had, the bytes before them are unchanged and the cursor has advanced by
`data.size()`. -/
theorem write_ByteArray_complete_or_error {σ : Type} (B : Stream σ) (s : σ)
    (data : List Byte) (m : MemoryState) :
    (∀ n s1, B.writesome s data = .ok (n, s1) → n ≠ data.length →
        B.write_ByteArray s data = .error (.StreamError "Failed to write data to stream!"))
    ∧ (∀ s1, B.writesome s data = .ok (data.length, s1) → B.write_ByteArray s data = .ok s1)
    ∧ Stream.write_ByteArray MemoryStream m data
        = .ok ⟨overwrite m.bytes m.pos data, m.pos + data.length⟩
    ∧ (m.pos ≤ m.bytes.length →
        ((overwrite m.bytes m.pos data).drop m.pos).take data.length = data
        ∧ (overwrite m.bytes m.pos data).take m.pos = m.bytes.take m.pos) := by
  refine ⟨?_, ?_, MemoryStream_write_ByteArray m data, ?_⟩
  · intro n s1 hw hne
    simp only [Stream.write_ByteArray, Stream.write, hw, hne, ne_eq, not_false_eq_true, if_true]
  · intro s1 hw
    simp only [Stream.write_ByteArray, Stream.write, hw, ne_eq, not_true_eq_false, if_false]
  · intro hp
    refine ⟨take_drop_overwrite m.bytes m.pos data hp, ?_⟩
    have h1 : (m.bytes.take m.pos).length = m.pos := by
      rw [List.length_take]; omega
    unfold overwrite
    rw [List.append_assoc, List.take_left' h1]

/-- Witness of C12: a sink that accepts one byte of three, and the in-memory stream. -/
theorem write_ByteArray_complete_or_error_witness :
    Stream.write_ByteArray (ThrottledStream 1) ⟨[], 0⟩ [1, 2, 3]
        = .error (.StreamError "Failed to write data to stream!")
      ∧ Stream.write_ByteArray MemoryStream ⟨[9, 9], 1⟩ [1, 2, 3] = .ok ⟨[9, 1, 2, 3], 4⟩ :=
  ⟨(write_ByteArray_complete_or_error (ThrottledStream 1) ⟨[], 0⟩ [1, 2, 3] ⟨[], 0⟩).1
      1 ⟨[1], 1⟩ rfl (by decide),
   (write_ByteArray_complete_or_error MemoryStream ⟨[9, 9], 1⟩ [1, 2, 3] ⟨[9, 9], 1⟩).2.1
      ⟨[9, 1, 2, 3], 4⟩ rfl⟩

/-! ## Position and end of stream -/

/-- Claim C13. On the in-memory stream, every operation that starts with the position
within the size and succeeds (a read of bytes, of a primitive, of a POD value, of a string or
of a sequence, `seekBegin`, `seekEnd`) ends with the position within the size; on the empty
stream `seekEnd`, whose target `size() - 1` wraps to `SIZE_MAX`, does not succeed. -/
theorem position_within_size (e : Endian) (T : PrimType) (s s1 : MemoryState)
    (hs : MemoryStream.tell s ≤ MemoryStream.size s) :
    (∀ L n d, Stream.read MemoryStream s L = .ok (n, d, s1) →
        MemoryStream.tell s1 ≤ MemoryStream.size s1)
    ∧ (∀ L d, Stream.read_ByteArray MemoryStream s L = .ok (d, s1) →
        MemoryStream.tell s1 ≤ MemoryStream.size s1)
    ∧ (∀ v, Stream.read_prim e T MemoryStream s = .ok (v, s1) →
        MemoryStream.tell s1 ≤ MemoryStream.size s1)
    ∧ (∀ k d, Stream._read_pod MemoryStream s k = .ok (d, s1) →
        MemoryStream.tell s1 ≤ MemoryStream.size s1)
    ∧ (∀ L str, Stream.read_string MemoryStream s L = .ok (str, s1) →
        MemoryStream.tell s1 ≤ MemoryStream.size s1)
    ∧ (∀ n v, Stream._read_vector e T MemoryStream s n = .ok (v, s1) →
        MemoryStream.tell s1 ≤ MemoryStream.size s1)
    ∧ (Stream.seekBegin MemoryStream s = .ok s1 → MemoryStream.tell s1 ≤ MemoryStream.size s1)
    ∧ (Stream.seekEnd MemoryStream s = .ok s1 → MemoryStream.tell s1 ≤ MemoryStream.size s1)
    ∧ (∀ r, Stream.seekEnd MemoryStream ⟨[], 0⟩ ≠ .ok r) := by
  have hs2 : s.pos ≤ s.bytes.length := hs
  refine ⟨?_, ?_, ?_, ?_, ?_, ?_, ?_, ?_, ?_⟩
  · intro L n d h
    exact (MemoryStream_read_inv s s1 L n d h hs2).1
  · intro L d h
    unfold Stream.read_ByteArray at h
    split at h
    · cases h
    · split at h
      · cases h
      · rename_i n dl s2 hr
        split at h
        · cases h
        · simp only [Except.ok.injEq, Prod.mk.injEq] at h
          obtain ⟨-, rfl⟩ := h
          exact (MemoryStream_read_inv s _ L n dl hr hs2).1
  · intro v h
    unfold Stream.read_prim at h
    split at h
    · cases h
    · rename_i n dl s2 hr
      split at h
      · cases h
      · simp only [Except.ok.injEq, Prod.mk.injEq] at h
        obtain ⟨-, rfl⟩ := h
        exact (MemoryStream_read_inv s _ _ n dl hr hs2).1
  · intro k d h
    unfold Stream._read_pod at h
    split at h
    · cases h
    · rename_i n dl s2 hr
      split at h
      · cases h
      · simp only [Except.ok.injEq, Prod.mk.injEq] at h
        obtain ⟨-, rfl⟩ := h
        exact (MemoryStream_readsome_inv s _ _ n dl hr hs2).1
  · intro L str h
    unfold Stream.read_string at h
    split at h
    · cases h
    · split at h
      · cases h
      · rename_i n dl s2 hr
        split at h
        · cases h
        · have hinv := (MemoryStream_read_inv s _ _ n dl hr hs2).1
          dsimp only at h
          split at h <;>
            (simp only [Except.ok.injEq, Prod.mk.injEq] at h
             obtain ⟨-, rfl⟩ := h
             exact hinv)
  · intro n v h
    unfold Stream._read_vector at h
    split at h
    · cases h
    · dsimp only at h
      split at h
      · cases h
      · rename_i k dl s2 hr
        split at h
        · cases h
        · simp only [Except.ok.injEq, Prod.mk.injEq] at h
          obtain ⟨-, rfl⟩ := h
          exact (MemoryStream_read_inv s _ _ k dl hr hs2).1
  · intro h
    exact (MemoryStream_seek_inv s s1 0 h).1
  · intro h
    exact (MemoryStream_seek_inv s s1 _ h).1
  · intro r h
    cases h

/-- Witness of C13: a one-byte read at the last byte of a stream, and `seekBegin` on the
empty stream. -/
theorem position_within_size_witness :
    MemoryStream.tell (⟨[1, 2, 3], 3⟩ : MemoryState) ≤ MemoryStream.size (⟨[1, 2, 3], 3⟩ : MemoryState)
      ∧ MemoryStream.tell (⟨[], 0⟩ : MemoryState) ≤ MemoryStream.size (⟨[], 0⟩ : MemoryState) :=
  ⟨(position_within_size .little .uint8_t ⟨[1, 2, 3], 2⟩ ⟨[1, 2, 3], 3⟩ (by decide)).2.2.1 3 rfl,
   (position_within_size .little .uint8_t ⟨[], 0⟩ ⟨[], 0⟩ (by decide)).2.2.2.2.2.2.1 rfl⟩

/-- Claim C15. For every stream state with the position within the size (and the size
below `SIZE_MAX`): `eos()` is true exactly when the position is at least the size; when it is
true a read of one byte fails with the end-of-stream `StreamError`, when it is false the read
of one byte is passed to the underlying transfer. On the in-memory stream `eos()` is true
exactly when the read of one byte fails with that error, false exactly when the read
delivers one byte, and after the read of all remaining bytes `eos()` is true. -/
theorem end_of_stream_iff {σ : Type} (B : Stream σ) (s : σ) (m : MemoryState)
    (hn : B.size s < SIZE_MAX) (hm : m.Valid) :
    (B.eos s = true ↔ B.tell s ≥ B.size s)
    ∧ (B.tell s ≤ B.size s → B.eos s = true →
        B.read s 1 = .error (.StreamError "End of stream"))
    ∧ (B.tell s ≤ B.size s → B.eos s = false → B.read s 1 = B.readsome s 1)
    ∧ (Stream.eos MemoryStream m = true
        ↔ Stream.read MemoryStream m 1 = .error (.StreamError "End of stream"))
    ∧ (Stream.eos MemoryStream m = false
        ↔ ∃ b, Stream.read MemoryStream m 1 = .ok (1, [b], { m with pos := m.pos + 1 }))
    ∧ (∃ d m1, Stream.read_ByteArray MemoryStream m (MemoryStream.size m - MemoryStream.tell m)
          = .ok (d, m1)
        ∧ Stream.eos MemoryStream m1 = true) := by
  obtain ⟨hp, hl⟩ := hm
  have hP := PTRDIFF_MAX_le_SIZE_MAX
  have h2 := two_PTRDIFF_MAX_lt
  have hmem_eos : Stream.eos MemoryStream m = true →
      Stream.read MemoryStream m 1 = .error (.StreamError "End of stream") := by
    intro h
    have h1 : m.bytes.length ≤ m.pos := by simpa [Stream.eos, MemoryStream] using h
    apply Stream.read_end_of_stream
    · show m.pos + 1 ≤ SIZE_MAX
      omega
    · show m.bytes.length < m.pos + 1
      omega
  have hmem_not : Stream.eos MemoryStream m = false →
      ∃ b, Stream.read MemoryStream m 1 = .ok (1, [b], { m with pos := m.pos + 1 }) := by
    intro h
    have h1 : m.pos < m.bytes.length := by simpa [Stream.eos, MemoryStream] using h
    have hr := MemoryStream_read_ok m 1 (by omega) (by omega)
    have hlen := m.length_field 1 (by omega)
    obtain ⟨b, hb⟩ := List.length_eq_one.1 hlen
    exact ⟨b, by rw [hr, hb]⟩
  refine ⟨?_, ?_, ?_, ⟨hmem_eos, ?_⟩, ⟨hmem_not, ?_⟩, ?_⟩
  · simp [Stream.eos]
  · intro _ h
    have h1 : B.size s ≤ B.tell s := by simpa [Stream.eos] using h
    exact Stream.read_end_of_stream B s 1 (by omega) (by omega)
  · intro hp2 h
    have h1 : B.tell s < B.size s := by simpa [Stream.eos] using h
    apply Stream.read_eq_readsome
    rw [Nat.mod_eq_of_lt (by omega)]
    omega
  · intro h
    by_contra hne
    have hf : Stream.eos MemoryStream m = false := by simpa using hne
    obtain ⟨b, hb⟩ := hmem_not hf
    rw [hb] at h
    cases h
  · rintro ⟨b, hb⟩
    by_contra hne
    have ht : Stream.eos MemoryStream m = true := by simpa using hne
    rw [hmem_eos ht] at hb
    cases hb
  · refine ⟨_, _, MemoryStream_read_ByteArray m _ hl ?_, ?_⟩
    · show m.pos + (m.bytes.length - m.pos) ≤ m.bytes.length
      omega
    · show decide (m.pos + (m.bytes.length - m.pos) ≥ m.bytes.length) = true
      simp only [decide_eq_true_eq]
      omega

/-- Witness of C15: at the end of a two-byte stream `eos()` holds and the read of one
byte fails. -/
theorem end_of_stream_iff_witness :
    (Stream.eos MemoryStream ⟨[1, 2], 2⟩ = true
      ↔ Stream.read MemoryStream ⟨[1, 2], 2⟩ 1 = .error (.StreamError "End of stream")) :=
  (end_of_stream_iff MemoryStream ⟨[1, 2], 2⟩ ⟨[1, 2], 2⟩ (by decide) (by decide)).2.2.2.1

/-! ## Capability flags -/

/-- Claim C14, amended. The read and write operations of `Stream` never test the
capability flags: on a stream that differs from another only in what `canRead()` and
`canWrite()` answer, every read and every write overload has the same outcome, that of the
underlying transfer. The one operation that tests a flag is the copy from another stream,
which returns at once, without a transfer and without an error, when the source is not
readable. -/
theorem operations_ignore_capability_flags {σ τ : Type} (e : Endian) (T : PrimType)
    (B : Stream σ) (I : Stream τ) (f g : σ → Bool) (s : σ) (i : τ) (L : Nat)
    (data : List Byte) (x : Int) (vec : List Int) (name : String) (b n : Nat) :
    Stream.read { B with canRead := f, canWrite := g } s L = Stream.read B s L
    ∧ Stream.read_ByteArray { B with canRead := f, canWrite := g } s L
        = Stream.read_ByteArray B s L
    ∧ Stream.read_prim e T { B with canRead := f, canWrite := g } s = Stream.read_prim e T B s
    ∧ Stream.read_string { B with canRead := f, canWrite := g } s L = Stream.read_string B s L
    ∧ Stream._read_vector e T { B with canRead := f, canWrite := g } s L
        = Stream._read_vector e T B s L
    ∧ Stream._read_pod { B with canRead := f, canWrite := g } s L = Stream._read_pod B s L
    ∧ Stream.write { B with canRead := f, canWrite := g } s data = Stream.write B s data
    ∧ Stream.write_ByteArray { B with canRead := f, canWrite := g } s data
        = Stream.write_ByteArray B s data
    ∧ Stream.write_prim e T { B with canRead := f, canWrite := g } s x
        = Stream.write_prim e T B s x
    ∧ Stream._write_vector e T { B with canRead := f, canWrite := g } s vec name
        = Stream._write_vector e T B s vec name
    ∧ Stream._write_pod { B with canRead := f, canWrite := g } s data
        = Stream._write_pod B s data
    ∧ (I.canRead i = false → Stream.write_Stream_range B I s i b n = .ok (s, i)) := by
  refine ⟨rfl, rfl, rfl, rfl, rfl, rfl, rfl, rfl, rfl, rfl, rfl, ?_⟩
  intro h
  simp [Stream.write_Stream_range, h]

/-- Witness of C14: a copy from a source that is not readable returns with both streams
unchanged. -/
theorem operations_ignore_capability_flags_witness :
    Stream.write_Stream_range MemoryStream DeniedStream ⟨[], 0⟩ ⟨[1, 2, 3], 0⟩ 0 3
      = .ok (⟨[], 0⟩, ⟨[1, 2, 3], 0⟩) :=
  (operations_ignore_capability_flags .little .uint8_t MemoryStream DeniedStream
    (fun _ => false) (fun _ => false) ⟨[], 0⟩ ⟨[1, 2, 3], 0⟩ 0 [] 0 [] "" 0 3).2.2.2.2.2.2.2.2.2.2.2
    rfl

/-- Claim C14 as stated fails: on a stream whose `canWrite()` and `canRead()` are false the
write of a byte buffer and of a `uint16_t` succeed and transfer their bytes, the read of a
`uint8_t` succeeds, and the copy from that stream as the source returns without an error. -/
theorem denied_stream_operations_succeed :
    DeniedStream.canWrite ⟨[], 0⟩ = false
      ∧ Stream.write_ByteArray DeniedStream ⟨[], 0⟩ [1, 2, 3] = .ok ⟨[1, 2, 3], 3⟩
      ∧ Stream.write_prim .little .uint16_t DeniedStream ⟨[], 0⟩ 258 = .ok ⟨[2, 1], 2⟩
      ∧ DeniedStream.canRead ⟨[7], 0⟩ = false
      ∧ Stream.read_prim .little .uint8_t DeniedStream ⟨[7], 0⟩ = .ok (7, ⟨[7], 1⟩)
      ∧ Stream.write_Stream MemoryStream DeniedStream ⟨[], 0⟩ ⟨[1, 2, 3], 0⟩
          = .ok (⟨[], 0⟩, ⟨[1, 2, 3], 0⟩) :=
  ⟨rfl, rfl, rfl, rfl, rfl, rfl⟩

/-! ## Writing from another stream -/

/-- Claim C16, at the failing input. From a readable source of the three bytes 1, 2, 3,
`write(istream, 0)` appends the two bytes 1, 2 only: the length `istream.size() - 1` that it
passes on is one short of the source. The sibling `write(istream)`, which passes
`istream.size()`, appends all three bytes. -/
theorem write_Stream_offset_zero_drops_last_byte :
    Stream.write_Stream_offset MemoryStream MemoryStream ⟨[], 0⟩ ⟨[1, 2, 3], 0⟩ 0
        = .ok (⟨[1, 2], 2⟩, ⟨[1, 2, 3], 2⟩)
      ∧ Stream.write_Stream MemoryStream MemoryStream ⟨[], 0⟩ ⟨[1, 2, 3], 0⟩
        = .ok (⟨[1, 2, 3], 3⟩, ⟨[1, 2, 3], 3⟩) :=
  ⟨rfl, rfl⟩

/-! ## Section offsets of the container -/

/-- Claim C17. For every header and every pair of consecutive sections in file order, the
offset of the earlier section plus its byte size is the offset of the next one. -/
theorem consecutive_section_offsets (L : CND.Layout) (h : CndHeader) :
    CND.GetOffset_Materials L h + h.sizeMaterials = CND.GetOffset_Georesource L h
    ∧ CND.GetOffset_Georesource L h + L.georesourceSize h = CND.GetOffset_Sectors L h
    ∧ CND.GetOffset_Sectors L h + L.sectorsSize h = CND.GetOffset_AiClass L h
    ∧ CND.GetOffset_AiClass L h + h.sizeAiClasses = CND.GetOffset_Models L h
    ∧ CND.GetOffset_Models L h + h.sizeModels = CND.GetOffset_Sprites L h
    ∧ CND.GetOffset_Sprites L h + h.sizeSprites = CND.GetOffset_Keyframes L h
    ∧ CND.GetOffset_Keyframes L h + h.sizeKeyframes = CND.GetOffset_AnimClass L h
    ∧ CND.GetOffset_AnimClass L h + h.sizePuppets = CND.GetOffset_SoundClass L h
    ∧ CND.GetOffset_SoundClass L h + h.sizeSoundClasses = CND.GetOffset_CogScripts L h := by
  have key : ∀ k, k + 1 < CND.fileOrder.length →
      CND.offset_of L h (CND.fileOrder.getD k .Materials)
          + CND.sectionSize L h (CND.fileOrder.getD k .Materials)
        = CND.offset_of L h (CND.fileOrder.getD (k + 1) .Materials) := by
    intro k hk
    have hk9 : k < 9 := by
      have : k + 1 < 10 := by simpa [CND.fileOrder] using hk
      omega
    interval_cases k <;>
      simp [CND.offset_of, CND.fileOrder, CND.sectionSize, List.takeWhile] <;> omega
  exact ⟨key 0 (by decide), key 1 (by decide), key 2 (by decide), key 3 (by decide),
    key 4 (by decide), key 5 (by decide), key 6 (by decide), key 7 (by decide),
    key 8 (by decide)⟩

/-! ## Position after a string read -/

/-- Claim C19, amended. On the in-memory stream, for every machine and every `lenHint`: when
the string of `lenHint` characters is constructed and at least `lenHint` bytes are available,
`read<std::string>(lenHint)` succeeds and advances the position by exactly `lenHint`, whatever
the length (at most `lenHint`) of the string returned; when the string is constructed and
fewer bytes are available, it fails with the end-of-stream `StreamError`; when the
construction of the string throws, it fails with that exception, which is not a
`StreamError`. -/
theorem read_string_advances_by_lenHint (A : Allocator) (s : MemoryState) (lenHint : Nat)
    (hs : s.Valid) (hA : A.Lawful) :
    (A lenHint 1 = .ok () → s.pos + lenHint ≤ s.bytes.length →
        ∃ str, Stream.read_string_on A MemoryStream s lenHint
            = .ok (str, { s with pos := s.pos + lenHint })
          ∧ str.length ≤ lenHint)
    ∧ (A lenHint 1 = .ok () → s.bytes.length < s.pos + lenHint →
        Stream.read_string_on A MemoryStream s lenHint = .error (.StreamError "End of stream"))
    ∧ (∀ x, A lenHint 1 = .error x →
        Stream.read_string_on A MemoryStream s lenHint = .error x
          ∧ ∀ msg, x ≠ .StreamError msg) := by
  obtain ⟨hp, hn⟩ := hs
  refine ⟨?_, ?_, ?_⟩
  · intro hok h
    have hlen := s.length_field lenHint h
    rw [MemoryStream_read_string_on_ok A s lenHint hok (le_trans hn PTRDIFF_MAX_le_SIZE_MAX) h]
    split_ifs
    · exact ⟨_, rfl, by rw [List.length_take, hlen]; omega⟩
    · exact ⟨_, rfl, by rw [hlen]⟩
  · intro hok h
    have hl : lenHint ≤ PTRDIFF_MAX := by
      have := hA.1 lenHint 1 hok
      omega
    have h2 := two_PTRDIFF_MAX_lt
    have hm : lenHint * 1 % (SIZE_MAX + 1) = lenHint := by
      rw [Nat.mul_one, Nat.mod_eq_of_lt (by omega)]
    have hr : Stream.read MemoryStream s lenHint = .error (.StreamError "End of stream") := by
      apply Stream.read_end_of_stream
      · show s.pos + lenHint ≤ SIZE_MAX
        omega
      · exact h
    simp only [Stream.read_string_on, hok, hm, hr]
  · intro x hx
    exact ⟨Stream.read_string_on_error A MemoryStream s lenHint x hx, hA.2 lenHint 1 x hx⟩

/-- Witness of C19: on a machine whose strings hold up to `2^62 - 1` characters and whose
memory serves `2^32` bytes, on five stored bytes, a field of four bytes is read and truncated,
a field of six bytes fails with the end-of-stream error, and a field of `2^40` bytes fails
with `std::bad_alloc`. -/
theorem read_string_advances_by_lenHint_witness :
    (∃ str, Stream.read_string_on (Allocator.limited (2 ^ 62 - 1) (2 ^ 32)) MemoryStream
          ⟨[65, 0, 66, 67, 9], 0⟩ 4
        = .ok (str, ⟨[65, 0, 66, 67, 9], 0 + 4⟩) ∧ str.length ≤ 4)
      ∧ Stream.read_string_on (Allocator.limited (2 ^ 62 - 1) (2 ^ 32)) MemoryStream
          ⟨[65, 0, 66, 67, 9], 0⟩ 6
        = .error (.StreamError "End of stream")
      ∧ Stream.read_string_on (Allocator.limited (2 ^ 62 - 1) (2 ^ 32)) MemoryStream
          ⟨[65, 0, 66, 67, 9], 0⟩ (2 ^ 40)
        = .error .bad_alloc :=
  ⟨(read_string_advances_by_lenHint (Allocator.limited (2 ^ 62 - 1) (2 ^ 32))
      ⟨[65, 0, 66, 67, 9], 0⟩ 4 (by decide) (Allocator.limited_lawful _ _ (by decide))).1 rfl
      (by decide),
   (read_string_advances_by_lenHint (Allocator.limited (2 ^ 62 - 1) (2 ^ 32))
      ⟨[65, 0, 66, 67, 9], 0⟩ 6 (by decide) (Allocator.limited_lawful _ _ (by decide))).2.1 rfl
      (by decide),
   ((read_string_advances_by_lenHint (Allocator.limited (2 ^ 62 - 1) (2 ^ 32))
      ⟨[65, 0, 66, 67, 9], 0⟩ (2 ^ 40) (by decide)
      (Allocator.limited_lawful _ _ (by decide))).2.2 .bad_alloc (by rfl)).1⟩

/-- Claim C19 as stated fails on a stream of two bytes, where fewer than `lenHint` bytes
are available: for `lenHint = SIZE_MAX`, which no string of any machine can hold, the read
fails with `std::length_error`, not with a `StreamError`; on a machine whose strings hold up
to `2^62 - 1` characters and whose memory serves `2^32` bytes it fails with
`std::length_error` for `lenHint = 2^62` and with `std::bad_alloc` for `lenHint = 2^40`. -/
theorem read_string_length_error :
    MemoryStream.size ⟨[1, 2], 0⟩ - MemoryStream.tell ⟨[1, 2], 0⟩ < SIZE_MAX
      ∧ Stream.read_string MemoryStream ⟨[1, 2], 0⟩ SIZE_MAX
        = .error (.length_error "cannot create container larger than max_size()")
      ∧ (¬ ∃ msg, Stream.read_string MemoryStream ⟨[1, 2], 0⟩ SIZE_MAX
          = .error (.StreamError msg))
      ∧ MemoryStream.size ⟨[1, 2], 0⟩ - MemoryStream.tell ⟨[1, 2], 0⟩ < 2 ^ 62
      ∧ Stream.read_string_on (Allocator.limited (2 ^ 62 - 1) (2 ^ 32)) MemoryStream
          ⟨[1, 2], 0⟩ (2 ^ 62)
        = .error (.length_error "cannot create container larger than max_size()")
      ∧ Stream.read_string_on (Allocator.limited (2 ^ 62 - 1) (2 ^ 32)) MemoryStream
          ⟨[1, 2], 0⟩ (2 ^ 40)
        = .error .bad_alloc := by
  have h : Stream.read_string MemoryStream ⟨[1, 2], 0⟩ SIZE_MAX
      = .error (.length_error "cannot create container larger than max_size()") := rfl
  refine ⟨by decide, h, ?_, by decide, rfl, rfl⟩
  rintro ⟨msg, hmsg⟩
  rw [h] at hmsg
  cases hmsg

/-! ## WAV data chunk -/

/-- Claim C20. On a little-endian host and the in-memory stream, writing a `WavDataChunk`
whose tag is the one its type gives it stores at the cursor, in this order, the four bytes
`d`, `a`, `t`, `a`, the four bytes of the stored size member, and all bytes of `chunk.data`:
`8 + |data|` bytes, whatever the relation between the size member and `|data|`. -/
theorem WavDataChunk_write_layout (s : MemoryState) (chunk : WavDataChunk)
    (hs : s.pos ≤ s.bytes.length) (ht : chunk.tag = kDataChunkId) (hsz : chunk.size < 2 ^ 32) :
    WavDataChunk.write .little MemoryStream s chunk
        = .ok ⟨overwrite s.bytes s.pos
                ([100, 97, 116, 97]
                  ++ [chunk.size % 256, chunk.size / 256 % 256, chunk.size / 65536 % 256,
                      chunk.size / 16777216 % 256]
                  ++ chunk.data),
              s.pos + (8 + chunk.data.length)⟩
      ∧ ([100, 97, 116, 97] : List Nat) = charCodes "data"
      ∧ ([100, 97, 116, 97]
            ++ [chunk.size % 256, chunk.size / 256 % 256, chunk.size / 65536 % 256,
                chunk.size / 16777216 % 256]
            ++ chunk.data).length = 8 + chunk.data.length := by
  refine ⟨?_, rfl, by simp; omega⟩
  have htag : objectBytes .little .uint32_t (chunk.tag : Int) = [100, 97, 116, 97] := by
    rw [ht, kDataChunkId_bytes, charCodes_data]
  have hsize := objectBytes_uint32_little chunk.size hsz
  simp only [WavDataChunk.write, RiffChunkHeader.write, htag, hsize, MemoryStream_write_pod,
    MemoryStream_write_ByteArray]
  have := overwrite_overwrite s.bytes s.pos
    ([100, 97, 116, 97] ++ [chunk.size % 256, chunk.size / 256 % 256, chunk.size / 65536 % 256,
      chunk.size / 16777216 % 256]) chunk.data hs
  rw [this]
  have hl : ([100, 97, 116, 97] ++ [chunk.size % 256, chunk.size / 256 % 256,
      chunk.size / 65536 % 256, chunk.size / 16777216 % 256] : List Byte).length = 8 := rfl
  rw [hl, Nat.add_assoc]

/-- Witness of C20: a chunk with the size member 7 and a payload of three bytes. -/
theorem WavDataChunk_write_layout_witness :
    WavDataChunk.write .little MemoryStream ⟨[], 0⟩ (WavDataChunk.create 7 [1, 2, 3])
      = .ok ⟨[100, 97, 116, 97, 7, 0, 0, 0, 1, 2, 3], 11⟩ :=
  (WavDataChunk_write_layout ⟨[], 0⟩ (WavDataChunk.create 7 [1, 2, 3]) (by decide) rfl
    (by decide)).1

/-! ## Copy of a byte range from another stream -/

/-- Claim C21. For every readable in-memory source of size `n`, every `begin < n` and every
`len` with `begin + len` in the range of `size_t`, `write(istream, begin, len)` writes at the
cursor of the destination exactly the `min(len, n - begin)` bytes that the source holds at
the offsets `begin .. begin + min(len, n - begin) - 1`, in order, and advances the cursor by
their number; at the end of the destination these bytes are appended. -/
theorem write_Stream_range_copies_clamped (s i : MemoryState) (b len : Nat)
    (hi : i.bytes.length ≤ PTRDIFF_MAX) (hb : b < i.bytes.length) (hlen : b + len ≤ SIZE_MAX) :
    Stream.write_Stream_range MemoryStream MemoryStream s i b len
        = .ok (⟨overwrite s.bytes s.pos ((i.bytes.drop b).take (min len (i.bytes.length - b))),
                s.pos + min len (i.bytes.length - b)⟩,
               ⟨i.bytes, b + min len (i.bytes.length - b)⟩)
      ∧ ((i.bytes.drop b).take (min len (i.bytes.length - b))).length
          = min len (i.bytes.length - b)
      ∧ (∀ k, k < min len (i.bytes.length - b) →
          ((i.bytes.drop b).take (min len (i.bytes.length - b)))[k]? = i.bytes[b + k]?)
      ∧ (s.pos = s.bytes.length →
          overwrite s.bytes s.pos ((i.bytes.drop b).take (min len (i.bytes.length - b)))
            = s.bytes ++ (i.bytes.drop b).take (min len (i.bytes.length - b))) := by
  refine ⟨MemoryStream_write_Stream_range s i b len hi hb hlen, ?_, ?_, ?_⟩
  · rw [List.length_take, List.length_drop]
    omega
  · intro k hk
    rw [List.getElem?_take_of_lt hk, List.getElem?_drop]
  · intro h
    rw [h, overwrite_at_end]

/-- Witness of C21: from offset 1 of a four-byte source, a request for 7 bytes copies the
three bytes that are there. -/
theorem write_Stream_range_copies_clamped_witness :
    Stream.write_Stream_range MemoryStream MemoryStream ⟨[9], 1⟩ ⟨[1, 2, 3, 4], 0⟩ 1 7
      = .ok (⟨[9, 2, 3, 4], 4⟩, ⟨[1, 2, 3, 4], 4⟩) :=
  (write_Stream_range_copies_clamped ⟨[9], 1⟩ ⟨[1, 2, 3, 4], 0⟩ 1 7 (by decide) (by decide)
    (by decide)).1

/-- Claim C22. After `write(istream, begin, len)` from a readable in-memory source holding
the bytes `src`, with `begin` below their number `n`, the position of the source is
`begin + min(len, n - begin)` whatever its position `p` was before the call, so it is not the
prior position unless the two coincide; the bytes and the size of the source are unchanged. -/
theorem write_Stream_range_source_position (s : MemoryState) (src : List Byte)
    (p b len : Nat) (hi : src.length ≤ PTRDIFF_MAX) (hb : b < src.length)
    (hlen : b + len ≤ SIZE_MAX) :
    ∃ s1 i1, Stream.write_Stream_range MemoryStream MemoryStream s ⟨src, p⟩ b len = .ok (s1, i1)
      ∧ MemoryStream.tell i1 = b + min len (src.length - b)
      ∧ i1.bytes = src
      ∧ MemoryStream.size i1 = MemoryStream.size ⟨src, p⟩
      ∧ (p ≠ b + min len (src.length - b) → MemoryStream.tell i1 ≠ p) := by
  refine ⟨_, _, MemoryStream_write_Stream_range s ⟨src, p⟩ b len hi hb hlen, rfl, rfl, rfl, ?_⟩
  intro h heq
  exact h heq.symm

/-- Witness of C22: a source positioned at 0 is left at position 3 by the copy of two bytes
from offset 1. -/
theorem write_Stream_range_source_position_witness :
    ∃ s1 i1, Stream.write_Stream_range MemoryStream MemoryStream ⟨[], 0⟩ ⟨[1, 2, 3, 4], 0⟩ 1 2
        = .ok (s1, i1)
      ∧ MemoryStream.tell i1 = 1 + min 2 (([1, 2, 3, 4] : List Byte).length - 1)
      ∧ i1.bytes = [1, 2, 3, 4]
      ∧ MemoryStream.size i1 = MemoryStream.size ⟨[1, 2, 3, 4], 0⟩
      ∧ ((0 : Nat) ≠ 1 + min 2 (([1, 2, 3, 4] : List Byte).length - 1) →
          MemoryStream.tell i1 ≠ 0) :=
  write_Stream_range_source_position ⟨[], 0⟩ [1, 2, 3, 4] 0 1 2 (by decide) (by decide)
    (by decide)

/-! ## Reads refused by the bounds check -/

/-- Claim C24. For every non-empty stream of size `n`, `seekEnd()` is `seek(n - 1)` and
`seekBegin()` is `seek(0)`. On the in-memory stream `seekEnd()` sets the position to `n - 1`,
where `eos()` is false, a read of one byte gives the last byte and ends at the position `n`,
and a read of two bytes fails; `seekBegin()` sets the position to 0. -/
theorem seekEnd_last_byte {σ : Type} (B : Stream σ) (s : σ) (m : MemoryState)
    (hB : 0 < B.size s) (hBn : B.size s ≤ SIZE_MAX)
    (hm : 0 < m.bytes.length) (hn : m.bytes.length ≤ PTRDIFF_MAX) :
    Stream.seekEnd B s = B.seek s (B.size s - 1)
    ∧ Stream.seekBegin B s = B.seek s 0
    ∧ Stream.seekEnd MemoryStream m = .ok ⟨m.bytes, m.bytes.length - 1⟩
    ∧ Stream.eos MemoryStream ⟨m.bytes, m.bytes.length - 1⟩ = false
    ∧ (∃ b, m.bytes[m.bytes.length - 1]? = some b
        ∧ Stream.read_ByteArray MemoryStream ⟨m.bytes, m.bytes.length - 1⟩ 1
            = .ok ([b], ⟨m.bytes, m.bytes.length⟩))
    ∧ Stream.read_ByteArray MemoryStream ⟨m.bytes, m.bytes.length - 1⟩ 2
        = .error (.StreamError "End of stream")
    ∧ Stream.seekBegin MemoryStream m = .ok ⟨m.bytes, 0⟩ := by
  have hP := PTRDIFF_MAX_le_SIZE_MAX
  have hwrap : ∀ n, 0 < n → n ≤ SIZE_MAX → (n + SIZE_MAX) % (SIZE_MAX + 1) = n - 1 := by
    intro n h0 h1
    have h2 : n + SIZE_MAX = (n - 1) + (SIZE_MAX + 1) := by omega
    rw [h2, Nat.add_mod_right, Nat.mod_eq_of_lt (by omega)]
  refine ⟨?_, rfl, ?_, ?_, ?_, ?_, ?_⟩
  · unfold Stream.seekEnd
    rw [hwrap _ hB hBn]
  · unfold Stream.seekEnd
    have : (MemoryStream.size m + SIZE_MAX) % (SIZE_MAX + 1) = m.bytes.length - 1 :=
      hwrap m.bytes.length hm (by omega)
    rw [this]
    simp only [MemoryStream]
    rw [if_neg (by omega)]
  · simp only [Stream.eos, MemoryStream, decide_eq_false_iff_not]
    omega
  · have hr := MemoryStream_read_ByteArray ⟨m.bytes, m.bytes.length - 1⟩ 1 hn
      (by show m.bytes.length - 1 + 1 ≤ m.bytes.length; omega)
    have hlen := MemoryState.length_field ⟨m.bytes, m.bytes.length - 1⟩ 1
      (by show m.bytes.length - 1 + 1 ≤ m.bytes.length; omega)
    obtain ⟨b, hb⟩ := List.length_eq_one.1 hlen
    have hget := MemoryState.getElem?_field ⟨m.bytes, m.bytes.length - 1⟩ 1 0 (by decide)
    rw [hb] at hget
    refine ⟨b, ?_, ?_⟩
    · simpa using hget.symm
    · rw [hr, hb]
      have : m.bytes.length - 1 + 1 = m.bytes.length := by omega
      simp only [this]
  · have hr : Stream.read MemoryStream ⟨m.bytes, m.bytes.length - 1⟩ 2
        = .error (.StreamError "End of stream") := by
      apply Stream.read_end_of_stream
      · show m.bytes.length - 1 + 2 ≤ SIZE_MAX
        have h2 := two_PTRDIFF_MAX_lt
        omega
      · show m.bytes.length < m.bytes.length - 1 + 2
        omega
    simp only [Stream.read_ByteArray, allocate_ok 2 1 (by decide), hr]
  · simp only [Stream.seekBegin, MemoryStream]
    rw [if_neg (by omega)]

/-- Witness of C24: a stream of three bytes. -/
theorem seekEnd_last_byte_witness :
    Stream.seekEnd MemoryStream ⟨[5, 6, 7], 0⟩ = .ok ⟨[5, 6, 7], 2⟩
      ∧ Stream.eos MemoryStream ⟨[5, 6, 7], 2⟩ = false
      ∧ Stream.seekBegin MemoryStream ⟨[5, 6, 7], 2⟩ = .ok ⟨[5, 6, 7], 0⟩ :=
  ⟨(seekEnd_last_byte MemoryStream ⟨[5, 6, 7], 0⟩ ⟨[5, 6, 7], 0⟩ (by decide) (by decide)
      (by decide) (by decide)).2.2.1,
   (seekEnd_last_byte MemoryStream ⟨[5, 6, 7], 0⟩ ⟨[5, 6, 7], 0⟩ (by decide) (by decide)
      (by decide) (by decide)).2.2.2.1,
   (seekEnd_last_byte MemoryStream ⟨[5, 6, 7], 2⟩ ⟨[5, 6, 7], 2⟩ (by decide) (by decide)
      (by decide) (by decide)).2.2.2.2.2.2⟩

/-! ## RIFF tags -/

/-- The bitwise combination of four bytes is their weighted sum. -/
theorem MakeRiffTag_eq_sum (c0 c1 c2 c3 : Nat) (h0 : c0 < 256) (h1 : c1 < 256) (h2 : c2 < 256)
    (h3 : c3 < 256) :
    MakeRiffTag [c0, c1, c2, c3] = c0 + c1 * 2 ^ 8 + c2 * 2 ^ 16 + c3 * 2 ^ 24 := by
  have e1 : c3 <<< 24 ||| c2 <<< 16 = 2 ^ 16 * (c3 * 2 ^ 8 + c2) := by
    rw [Nat.shiftLeft_eq, Nat.shiftLeft_eq]
    have : c3 * 2 ^ 24 = 2 ^ 24 * c3 := Nat.mul_comm _ _
    rw [this, ← Nat.mul_add_lt_is_or (by omega) c3]
    ring
  have e2 : 2 ^ 16 * (c3 * 2 ^ 8 + c2) ||| c1 <<< 8 = 2 ^ 8 * (c3 * 2 ^ 16 + c2 * 2 ^ 8 + c1) := by
    rw [Nat.shiftLeft_eq, ← Nat.mul_add_lt_is_or (by omega) (c3 * 2 ^ 8 + c2)]
    ring
  have e3 : 2 ^ 8 * (c3 * 2 ^ 16 + c2 * 2 ^ 8 + c1) ||| c0
      = c0 + c1 * 2 ^ 8 + c2 * 2 ^ 16 + c3 * 2 ^ 24 := by
    rw [← Nat.mul_add_lt_is_or (by omega) (c3 * 2 ^ 16 + c2 * 2 ^ 8 + c1)]
    ring
  simp only [MakeRiffTag, List.getD_cons_succ, List.getD_cons_zero, e1, e2, e3]
  apply Nat.mod_eq_of_lt
  omega

/-- Claim C25. For four characters with codes `c0 .. c3` in `0 .. 127`, `MakeRiffTag` is
`c0 + c1 * 2^8 + c2 * 2^16 + c3 * 2^24`, and its little-endian encoding as `uint32_t` is the
four bytes `c0, c1, c2, c3`; the four tag constants have the values `0x46464952`,
`0x45564157`, `0x20746D66` and `0x61746164`. -/
theorem MakeRiffTag_value (c0 c1 c2 c3 : Nat) (h0 : c0 ≤ 127) (h1 : c1 ≤ 127) (h2 : c2 ≤ 127)
    (h3 : c3 ≤ 127) :
    MakeRiffTag [c0, c1, c2, c3] = c0 + c1 * 2 ^ 8 + c2 * 2 ^ 16 + c3 * 2 ^ 24
    ∧ objectBytes .little .uint32_t (MakeRiffTag [c0, c1, c2, c3] : Nat) = [c0, c1, c2, c3]
    ∧ kRiffChunkId = 0x46464952
    ∧ kWavFormatId = 0x45564157
    ∧ kFmtChunkId = 0x20746D66
    ∧ kDataChunkId = 0x61746164 := by
  have hs := MakeRiffTag_eq_sum c0 c1 c2 c3 (by omega) (by omega) (by omega) (by omega)
  refine ⟨hs, ?_, rfl, rfl, rfl, rfl⟩
  rw [objectBytes_uint32_little _ (by rw [hs]; omega), hs]
  have a0 : (c0 + c1 * 2 ^ 8 + c2 * 2 ^ 16 + c3 * 2 ^ 24) % 256 = c0 := by omega
  have a1 : (c0 + c1 * 2 ^ 8 + c2 * 2 ^ 16 + c3 * 2 ^ 24) / 256 % 256 = c1 := by omega
  have a2 : (c0 + c1 * 2 ^ 8 + c2 * 2 ^ 16 + c3 * 2 ^ 24) / 65536 % 256 = c2 := by omega
  have a3 : (c0 + c1 * 2 ^ 8 + c2 * 2 ^ 16 + c3 * 2 ^ 24) / 16777216 % 256 = c3 := by omega
  rw [a0, a1, a2, a3]

/-- Witness of C25: the tag of the characters `d`, `a`, `t`, `a`. -/
theorem MakeRiffTag_value_witness :
    MakeRiffTag (charCodes "data") = 100 + 97 * 2 ^ 8 + 116 * 2 ^ 16 + 97 * 2 ^ 24
      ∧ objectBytes .little .uint32_t (MakeRiffTag (charCodes "data") : Nat) = charCodes "data" :=
  ⟨(MakeRiffTag_value 100 97 116 97 (by decide) (by decide) (by decide) (by decide)).1,
   (MakeRiffTag_value 100 97 116 97 (by decide) (by decide) (by decide) (by decide)).2.1⟩

/-! ## Numeric value of a token -/

/-- Claim C26. For every token with `isNumber()` false, `getNumber<T>()` fails with the
`TokenizerError` whatever the text of the token is and whatever the extraction from the text
gives; `isNumber()` is true exactly for the types `Integer`, `HexInteger`, `OctInteger` and
`FloatNumber`. -/
theorem getNumber_requires_number_type {Loc DT : Type} (extract : text.Radix → String → Option DT)
    (t : text.Token Loc) :
    (t.isNumber = false →
        t.getNumber extract = .error ⟨"invalid numeric conversion from string", t.m_loc⟩)
    ∧ (t.isNumber = true ↔
        t.m_type = .Integer ∨ t.m_type = .HexInteger ∨ t.m_type = .OctInteger
          ∨ t.m_type = .FloatNumber) := by
  constructor
  · intro h
    simp [text.Token.getNumber, h]
  · simp [text.Token.isNumber, or_assoc]

/-- Witness of C26: an `Identifier` token with the text `42`, from which 42 is extracted. -/
theorem getNumber_requires_number_type_witness :
    text.Token.getNumber (fun _ _ => some (42 : Nat)) (⟨.Identifier, "42", ()⟩ : text.Token Unit)
      = .error ⟨"invalid numeric conversion from string", ()⟩ :=
  (getNumber_requires_number_type (fun _ _ => some (42 : Nat))
    (⟨.Identifier, "42", ()⟩ : text.Token Unit)).1 rfl

/-! ## Field width of the text resource writer -/

/-- A difference in `size_t` that does not wrap. -/
theorem size_t_sub (a b : Nat) (hba : b ≤ a) (ha : a ≤ SIZE_MAX) :
    (a + (SIZE_MAX + 1) - b) % (SIZE_MAX + 1) = a - b := by
  have h : a + (SIZE_MAX + 1) - b = (a - b) + (SIZE_MAX + 1) := by omega
  rw [h, Nat.add_mod_right, Nat.mod_eq_of_lt (by omega)]

/-- The references that `std::minmax` returns in `write`, by the position of the length `n`
of the text. -/
theorem write_field_references (n fieldWidth minSep : Nat) (h : minSep ≤ fieldWidth) :
    (n < minSep → minSep < fieldWidth →
        std_minmax (TextResourceWriter.sizeValue n minSep fieldWidth) .fieldWidth
            (std_clamp (TextResourceWriter.sizeValue n minSep fieldWidth) .textSize .minSep .fieldWidth)
          = (.minSep, .fieldWidth))
    ∧ (n < minSep → minSep = fieldWidth →
        std_minmax (TextResourceWriter.sizeValue n minSep fieldWidth) .fieldWidth
            (std_clamp (TextResourceWriter.sizeValue n minSep fieldWidth) .textSize .minSep .fieldWidth)
          = (.fieldWidth, .minSep))
    ∧ (fieldWidth < n →
        std_minmax (TextResourceWriter.sizeValue n minSep fieldWidth) .fieldWidth
            (std_clamp (TextResourceWriter.sizeValue n minSep fieldWidth) .textSize .minSep .fieldWidth)
          = (.fieldWidth, .fieldWidth))
    ∧ (minSep ≤ n → n < fieldWidth →
        std_minmax (TextResourceWriter.sizeValue n minSep fieldWidth) .fieldWidth
            (std_clamp (TextResourceWriter.sizeValue n minSep fieldWidth) .textSize .minSep .fieldWidth)
          = (.textSize, .fieldWidth))
    ∧ (minSep ≤ n → n = fieldWidth →
        std_minmax (TextResourceWriter.sizeValue n minSep fieldWidth) .fieldWidth
            (std_clamp (TextResourceWriter.sizeValue n minSep fieldWidth) .textSize .minSep .fieldWidth)
          = (.fieldWidth, .textSize)) := by
  refine ⟨?_, ?_, ?_, ?_, ?_⟩
  · intro h1 h2
    simp [std_minmax, std_clamp, TextResourceWriter.sizeValue, h1, h2]
  · intro h1 h2
    subst h2
    simp [std_minmax, std_clamp, TextResourceWriter.sizeValue, h1]
  · intro h1
    have h2 : ¬ n < minSep := by omega
    simp [std_minmax, std_clamp, TextResourceWriter.sizeValue, h1, h2]
  · intro h1 h2
    have h3 : ¬ n < minSep := by omega
    have h4 : ¬ fieldWidth < n := by omega
    simp [std_minmax, std_clamp, TextResourceWriter.sizeValue, h2, h3, h4]
  · intro h1 h2
    subst h2
    have h3 : ¬ n < minSep := by omega
    simp [std_minmax, std_clamp, TextResourceWriter.sizeValue, h3]

/-- The separator count when the clamp does not return the temporary: whatever a read of the
destroyed temporary gives, the count is the one of the formula
`max(minSep, fieldWidth - clamp(n, minSep, fieldWidth))`. -/
theorem write_field_outside (A : Allocator) (out txt : List Char) (fieldWidth minSep : Nat)
    (ch : Char) (expired : Nat) (h : minSep ≤ fieldWidth) (hw : fieldWidth ≤ SIZE_MAX)
    (hout : txt.length < minSep ∨ fieldWidth < txt.length) :
    TextResourceWriter.write_field A out txt fieldWidth minSep ch expired
      = TextResourceWriter.indent A (out ++ txt)
          (max minSep (fieldWidth - clamp txt.length minSep fieldWidth)) ch := by
  obtain ⟨r1, r2, r3, -, -⟩ := write_field_references txt.length fieldWidth minSep h
  unfold TextResourceWriter.write_field TextResourceWriter.write_field_indw
  rcases hout with h1 | h1
  · have hc : clamp txt.length minSep fieldWidth = minSep := by simp [clamp, h1]
    by_cases h2 : minSep < fieldWidth
    · simp only [r1 h1 h2, TextResourceWriter.sizeValue, size_t_sub fieldWidth minSep h hw, hc,
        TextResourceWriter.write]
    · have h3 : minSep = fieldWidth := by omega
      have h4 := r2 h1 h3
      have h5 := size_t_sub minSep fieldWidth (by omega) (by omega)
      simp only [h4, TextResourceWriter.sizeValue, h5, hc, TextResourceWriter.write]
      rw [h3]
  · have hc : clamp txt.length minSep fieldWidth = fieldWidth := by
      have h2 : ¬ txt.length < minSep := by omega
      simp [clamp, h1, h2]
    simp only [r3 h1, TextResourceWriter.sizeValue, size_t_sub fieldWidth fieldWidth (le_refl _) hw, hc,
      TextResourceWriter.write]

/-- In the range `minSep ≤ n ≤ fieldWidth` the clamp returns the temporary; when the read
through the reference to the destroyed temporary still gives the length of the text, the
separator count is the one of the formula. -/
theorem write_field_inside_of_intact (A : Allocator) (out txt : List Char)
    (fieldWidth minSep : Nat) (ch : Char)
    (h1 : minSep ≤ txt.length) (h2 : txt.length ≤ fieldWidth) (hw : fieldWidth ≤ SIZE_MAX) :
    TextResourceWriter.write_field A out txt fieldWidth minSep ch txt.length
      = TextResourceWriter.indent A (out ++ txt) (max minSep (fieldWidth - txt.length)) ch := by
  obtain ⟨-, -, -, r4, r5⟩ := write_field_references txt.length fieldWidth minSep (by omega)
  unfold TextResourceWriter.write_field TextResourceWriter.write_field_indw
  by_cases h3 : txt.length < fieldWidth
  · simp only [r4 h1 h3, TextResourceWriter.sizeValue, size_t_sub fieldWidth txt.length h2 hw,
      TextResourceWriter.write]
  · have h4 : txt.length = fieldWidth := by omega
    have h5 := r5 h1 h4
    have h6 := size_t_sub txt.length fieldWidth (by omega) (by omega)
    simp only [h5, TextResourceWriter.sizeValue, h6, TextResourceWriter.write]
    rw [h4]

/-- Claim C27, at the failing input: the text `ab` (`n = 2`), the field width 8 and one
separator at least, for which the formula of the claim gives `max(1, 8 - clamp(2, 1, 8)) = 6`
separators and a total width of 8. `std::clamp` returns the reference to the temporary
`text.size()` and `std::minmax` passes it on as `min`; the separator count `indw` is computed
from the value read through that reference after the temporary has been destroyed: it is
`max(1, (8 - expired) mod 2^64)` for every value `expired` that the read gives. A read that
still gives 2 makes the count the 6 of the formula; a read that gives 0 makes the member emit
8 separators, a total width of 10; a read that gives 8 makes it emit 1 separator, a total
width of 3. The machine is one that can construct strings of up to `2^32` characters. -/
theorem write_field_expired_temporary :
    std_clamp (TextResourceWriter.sizeValue 2 1 8) .textSize .minSep .fieldWidth = .textSize
      ∧ std_minmax (TextResourceWriter.sizeValue 2 1 8) .fieldWidth .textSize
        = (.textSize, .fieldWidth)
      ∧ (∀ expired, TextResourceWriter.write_field_indw 2 8 1 expired
          = max 1 ((8 + (SIZE_MAX + 1) - expired) % (SIZE_MAX + 1)))
      ∧ max 1 (8 - clamp 2 1 8) = 6
      ∧ TextResourceWriter.write_field (Allocator.limited (2 ^ 62 - 1) (2 ^ 32)) []
            ['a', 'b'] 8 1 '.' 2
          = .ok (['a', 'b'] ++ List.replicate 6 '.')
      ∧ TextResourceWriter.write_field (Allocator.limited (2 ^ 62 - 1) (2 ^ 32)) []
            ['a', 'b'] 8 1 '.' 0
          = .ok (['a', 'b'] ++ List.replicate 8 '.')
      ∧ TextResourceWriter.write_field (Allocator.limited (2 ^ 62 - 1) (2 ^ 32)) []
            ['a', 'b'] 8 1 '.' 8
          = .ok (['a', 'b'] ++ List.replicate 1 '.') := by
  refine ⟨rfl, rfl, fun expired => rfl, by decide, rfl, rfl, rfl⟩

end libim
